import Mathlib

/-!
Verification development for the directory-analysis core of the `scout`
repository (Go). The Go sources are shallowly embedded: pure Go functions
become Lean functions over `List`/`String`/`Int`/`ℚ`; the effectful parts
(filesystem walk, per-file extraction, the current clock) are parameters of
the embedded functions. Machine floats in `analysis.go` appear only as exact
quotients of small integer counts compared against the literals 0.3/0.5/0.7/0.4;
they are modelled by exact rational arithmetic. Go's `strings.ToLower` is
modelled on ASCII letters (every string the program compares against is ASCII).
Go map iteration order is unobservable in the properties proved here (only
totals, maxima and membership of the histogram are used); the embedding uses a
fixed category order.
-/

/-! ### String primitives (models of Go `strings` helpers)

Lean core's `String.toLower`/`String.startsWith` do not reduce in the kernel,
so the embedding works on `String.data : List Char` with structural recursion.
-/

/-- ASCII lower-casing of one character (model of Go's `unicode.ToLower` on
the ASCII range, which is the only range exercised by scout's comparisons). -/
def lowerChar (c : Char) : Char :=
  if 'A' ≤ c ∧ c ≤ 'Z' then Char.ofNat (c.toNat + 32) else c

/-- Model of Go `strings.ToLower`, ASCII range. -/
def goToLower (s : String) : String := ⟨s.data.map lowerChar⟩

/-- Does the character list start with `sub`? -/
def strStartsL : List Char → List Char → Bool
  | _, [] => true
  | [], _ :: _ => false
  | c :: cs, d :: ds => c = d && strStartsL cs ds

/-- Does the character list contain `sub` as a contiguous sublist? -/
def strHasL : List Char → List Char → Bool
  | [], sub => sub.isEmpty
  | c :: t, sub => strStartsL (c :: t) sub || strHasL t sub

/-- Model of Go `strings.Contains`. -/
def strContains (s sub : String) : Bool := strHasL s.data sub.data

/-! ### Data model (`scout.FileSummary`, restricted to the fields read by
`analysis.go`: `Name`, `Extension`, `Size`). -/

/-- One scanned file as seen by the analysis phase. -/
structure FileSummary where
  Name : String
  Extension : String
  Size : Int
deriving DecidableEq, Inhabited, Repr

/-! ### `internal/utils` helper predicates (package `helpers`). -/

/-- Source-code extensions (from `IsCodeFile`). -/
def codeExts : List String :=
  [".go", ".dart", ".js", ".ts", ".py", ".java", ".rb", ".rs", ".c", ".cpp", ".cs", ".php", ".swift", ".kt"]

/-- Model of `helpers.IsCodeFile`. -/
def IsCodeFile (ext : String) : Bool := codeExts.contains ext

/-- Model of `helpers.IsConfigFile`. -/
def IsConfigFile (ext name : String) : Bool :=
  ext == ".json" || ext == ".yaml" || ext == ".yml" || ext == ".toml" ||
  ext == ".xml" || ext == ".ini" || name == ".env" || name == ".gitignore"

/-- Model of `helpers.IsImageFile`. -/
def IsImageFile (ext : String) : Bool :=
  ext == ".jpg" || ext == ".jpeg" || ext == ".png" || ext == ".gif" ||
  ext == ".bmp" || ext == ".svg" || ext == ".webp" || ext == ".heic"

/-- Model of `helpers.IsVideoFile`. -/
def IsVideoFile (ext : String) : Bool :=
  ext == ".mp4" || ext == ".avi" || ext == ".mov" || ext == ".mkv" ||
  ext == ".webm" || ext == ".flv" || ext == ".wmv"

/-- Model of `helpers.IsAudioFile`. -/
def IsAudioFile (ext : String) : Bool :=
  ext == ".mp3" || ext == ".wav" || ext == ".flac" || ext == ".aac" ||
  ext == ".ogg" || ext == ".m4a" || ext == ".wma"

/-- The project marker filenames of `helpers.IsProjectMarkerFile`. -/
def projectMarkers : List String :=
  ["package.json", "pubspec.yaml", "go.mod", "Cargo.toml",
   "requirements.txt", "pom.xml", "build.gradle", "Gemfile", "composer.json"]

/-- Model of `helpers.IsProjectMarkerFile`: the lower-cased filename equals the
lower-cased form of one of the markers. -/
def IsProjectMarkerFile (name : String) : Bool :=
  projectMarkers.any (fun marker => goToLower name == goToLower marker)

/-! ### Categorizer (`analysis.go` `categorizeFiles`). -/

/-- The `switch` body of `categorizeFiles` over the lower-cased extension and
name locals (first matching rule wins). -/
def categorizeExtName (ext name : String) : String :=
  if IsCodeFile ext then "code"
  else if IsConfigFile ext name then "config"
  else if ext == ".pdf" then "pdf"
  else if ext == ".docx" || ext == ".doc" then "word"
  else if ext == ".xlsx" || ext == ".xls" || ext == ".csv" then "spreadsheet"
  else if ext == ".pptx" || ext == ".ppt" then "presentation"
  else if ext == ".txt" || ext == ".md" then "text"
  else if IsImageFile ext then "image"
  else if IsVideoFile ext then "video"
  else if IsAudioFile ext then "audio"
  else if ext == ".zip" || ext == ".rar" || ext == ".7z" || ext == ".tar" || ext == ".gz" then "archive"
  else "other"

/-- The category assigned to one file (`ext`/`name` locals lower-cased). -/
def categorizeFile (file : FileSummary) : String :=
  categorizeExtName (goToLower file.Extension) (goToLower file.Name)

/-- Every category label the `switch` can produce, in rule order. -/
def allCategories : List String :=
  ["code", "config", "pdf", "word", "spreadsheet", "presentation", "text",
   "image", "video", "audio", "archive", "other"]

/-- Model of `categorizeFiles`: the category→count map, as its entry list.
A Go map holds exactly the keys that were incremented at least once; iteration
order is not observable in any property below, so entries are listed in the
fixed `allCategories` order. -/
def categorizeFiles (files : List FileSummary) : List (String × Nat) :=
  allCategories.filterMap (fun c =>
    let n := files.countP (fun f => categorizeFile f == c)
    if n = 0 then none else some (c, n))

/-- Reading `categories[c]` from the histogram (a missing key reads as 0,
as in Go). -/
def hGet (categories : List (String × Nat)) (c : String) : Nat :=
  ((categories.find? (fun e => e.1 == c)).map (·.2)).getD 0

/-- Total of all histogram values (the `total` accumulation loops). -/
def hTotal (categories : List (String × Nat)) : Nat :=
  (categories.map (·.2)).sum

/-! ### Domain classifier (`analysis.go` `detectDomain` and the keyword
helpers). -/

/-- Inferred directory purpose (`DomainType`). -/
inductive DomainType where
  | software | documents | media | study | financial | creative | mixed | empty
deriving DecidableEq, Repr, Inhabited

/-- Study keyword list of `hasStudyKeywords`. -/
def studyKeywords : List String :=
  ["exam", "test", "quiz", "study", "lecture", "notes", "chapter",
   "assignment", "homework", "course", "syllabus", "practice", "review"]

/-- Model of `hasStudyKeywords`: at least 3 files whose lower-cased name
contains some study keyword (the inner `break` makes each file count once). -/
def hasStudyKeywords (files : List FileSummary) : Bool :=
  files.countP (fun f => studyKeywords.any (fun k => strContains (goToLower f.Name) k)) ≥ 3

/-- Financial keyword list of `hasFinancialKeywords`. -/
def financialKeywords : List String :=
  ["tax", "invoice", "receipt", "statement", "bank", "payroll",
   "expense", "budget", "financial", "accounting"]

/-- Model of `hasFinancialKeywords` (threshold 2). -/
def hasFinancialKeywords (files : List FileSummary) : Bool :=
  files.countP (fun f => financialKeywords.any (fun k => strContains (goToLower f.Name) k)) ≥ 2

/-- Creative keyword list of `hasCreativeKeywords`. -/
def creativeKeywords : List String :=
  ["design", "mockup", "draft", "sketch", "artwork", "render",
   "illustration", "logo", "banner", "poster"]

/-- Model of `hasCreativeKeywords` (threshold 2). -/
def hasCreativeKeywords (files : List FileSummary) : Bool :=
  files.countP (fun f => creativeKeywords.any (fun k => strContains (goToLower f.Name) k)) ≥ 2

/-- The `codePercent` local of `detectDomain` (exact rational; the Go code
compares `float64` quotients of small integer counts with the literals
0.3/0.5/0.7/0.4, modelled by exact rational comparisons). -/
def codePercent (categories : List (String × Nat)) : ℚ :=
  (hGet categories "code" + hGet categories "config" : ℕ) / (hTotal categories : ℕ)

/-- The `docPercent` local of `detectDomain`. -/
def docPercent (categories : List (String × Nat)) : ℚ :=
  (hGet categories "pdf" + hGet categories "word" + hGet categories "text" : ℕ) / (hTotal categories : ℕ)

/-- The `mediaPercent` local of `detectDomain`. -/
def mediaPercent (categories : List (String × Nat)) : ℚ :=
  (hGet categories "image" + hGet categories "video" + hGet categories "audio" : ℕ) / (hTotal categories : ℕ)

/-- The `spreadsheetPercent` local of `detectDomain`. -/
def spreadsheetPercent (categories : List (String × Nat)) : ℚ :=
  (hGet categories "spreadsheet" : ℕ) / (hTotal categories : ℕ)

/-- The `hasProjectMarkers` scan of `detectDomain` (the loop with `break`). -/
def hasProjectMarkers (files : List FileSummary) : Bool :=
  files.any (fun f => IsProjectMarkerFile f.Name)

/-- Model of `detectDomain`. -/
def detectDomain (categories : List (String × Nat)) (files : List FileSummary) : DomainType :=
  if hTotal categories = 0 then DomainType.empty
  else if hasProjectMarkers files = true ∨ codePercent categories > 3/10 then DomainType.software
  else if docPercent categories > 1/2 then
    if hasStudyKeywords files = true then DomainType.study
    else if hasFinancialKeywords files = true then DomainType.financial
    else DomainType.documents
  else if mediaPercent categories > 7/10 then
    if hGet categories "image" > hGet categories "video" + hGet categories "audio"
        ∧ hasCreativeKeywords files = true then DomainType.creative
    else DomainType.media
  else if spreadsheetPercent categories > 2/5 then DomainType.financial
  else DomainType.mixed

/-- The accumulation loop of `calculateConfidence`: one pass over the map
entries accumulating `(total, dominant)`. -/
def confAcc (categories : List (String × Nat)) : Nat × Nat :=
  categories.foldl (fun (acc : Nat × Nat) e => (acc.1 + e.2, max acc.2 e.2)) (0, 0)

/-- Model of `calculateConfidence`: `dominant/total` (0 for a zero total). -/
def calculateConfidence (categories : List (String × Nat)) : ℚ :=
  if (confAcc categories).1 = 0 then 0
  else ((confAcc categories).2 : ℚ) / ((confAcc categories).1 : ℚ)

/-! ### Go's `sort.Slice` (pdqsort, go/src/sort/zsortfunc.go, Go ≥ 1.19)

`analysis.go` sorts with `sort.Slice`, which is documented as NOT stable.
The embedding mirrors the stdlib's pdqsort over a `List α` with an index
`less` relation. Loops are expressed with an explicit fuel argument so that
every definition is structurally recursive (and hence kernel-computable);
each call site passes fuel that strictly bounds the number of iterations the
Go loop can perform, so the fuel never runs out on the traces that occur.
Indices are `Nat`; Go's int indices are non-negative throughout these
routines. Out-of-range reads return `default` and out-of-range swaps are
no-ops; in the Go code all accesses are in range. -/

/-- Read `l[i]` (Go slice read; all reads in the sort are in bounds). -/
def lget [Inhabited α] (l : List α) (i : Nat) : α := l.getD i default

/-- Swap `l[i]` and `l[j]` (`data.Swap`). -/
def lswap [Inhabited α] (l : List α) (i j : Nat) : List α :=
  if i < l.length ∧ j < l.length then
    (l.set i (lget l j)).set j (lget l i)
  else l

/-- Compare positions `i`, `j` (`data.Less`). -/
def lless [Inhabited α] (less : α → α → Bool) (l : List α) (i j : Nat) : Bool :=
  less (lget l i) (lget l j)

/-- Inner loop of `insertionSort_func`: bubble the element at `j` left while
it is `less` than its predecessor and `j > a`. -/
def isortInner [Inhabited α] (less : α → α → Bool) (l : List α) (a : Nat) : Nat → List α
  | 0 => l
  | j + 1 =>
    if a < j + 1 ∧ lless less l (j + 1) j then
      isortInner less (lswap l (j + 1) j) a j
    else l

/-- Outer loop of `insertionSort_func` (`for i := a+1; i < b; i++`). -/
def isortLoop [Inhabited α] (less : α → α → Bool) (a b : Nat) : Nat → List α → Nat → List α
  | 0, l, _ => l
  | fuel + 1, l, i =>
    if i < b then isortLoop less a b fuel (isortInner less l a i) (i + 1) else l

/-- Model of `insertionSort_func(data, a, b)`. -/
def goInsertionSort [Inhabited α] (less : α → α → Bool) (l : List α) (a b : Nat) : List α :=
  isortLoop less a b b l (a + 1)

/-- Model of `siftDown_func`. The loop variable is `root`; it strictly
increases towards `hi`, so `hi` bounds the iterations. -/
def siftDownLoop [Inhabited α] (less : α → α → Bool) (hi first : Nat) : Nat → List α → Nat → List α
  | 0, l, _ => l
  | fuel + 1, l, root =>
    let child := 2 * root + 1
    if child < hi then
      let child2 := if child + 1 < hi ∧ lless less l (first + child) (first + child + 1) then child + 1 else child
      if lless less l (first + root) (first + child2) then
        siftDownLoop less hi first fuel (lswap l (first + root) (first + child2)) child2
      else l
    else l

/-- Model of `siftDown_func(data, lo, hi, first)`. -/
def goSiftDown [Inhabited α] (less : α → α → Bool) (l : List α) (lo hi first : Nat) : List α :=
  siftDownLoop less hi first (hi + 1) l lo

/-- Heap construction loop of `heapSort_func` (`for i := (hi-1)/2; i >= 0; i--`). -/
def heapBuildLoop [Inhabited α] (less : α → α → Bool) (hi first : Nat) : Nat → List α → List α
  | 0, l => goSiftDown less l 0 hi first
  | i + 1, l => heapBuildLoop less hi first i (goSiftDown less l (i + 1) hi first)

/-- Pop loop of `heapSort_func` (`for i := hi - 1; i >= 0; i--`). -/
def heapPopLoop [Inhabited α] (less : α → α → Bool) (first : Nat) : Nat → List α → List α
  | 0, l => goSiftDown less (lswap l first (first + 0)) 0 0 first
  | i + 1, l => heapPopLoop less first i (goSiftDown less (lswap l first (first + i + 1)) 0 (i + 1) first)

/-- Model of `heapSort_func(data, a, b)`. In Go the build loop always runs at
least the `i = 0` iteration (for `hi ≤ 1`, `(hi-1)/2` is `0` by int division)
and the pop loop runs only when `hi ≥ 1`. -/
def goHeapSort [Inhabited α] (less : α → α → Bool) (l : List α) (a b : Nat) : List α :=
  let first := a
  let hi := b - a
  let l1 := heapBuildLoop less hi first ((hi - 1) / 2) l
  if hi = 0 then l1 else heapPopLoop less first (hi - 1) l1

/-- Model of `reverseRange_func` (`i, j := a, b-1; for i < j { swap; i++; j-- }`). -/
def revRangeLoop [Inhabited α] : Nat → List α → Nat → Nat → List α
  | 0, l, _, _ => l
  | fuel + 1, l, i, j => if i < j then revRangeLoop fuel (lswap l i j) (i + 1) (j - 1) else l

/-- Model of `reverseRange_func(data, a, b)`. -/
def goReverseRange [Inhabited α] (l : List α) (a b : Nat) : List α :=
  revRangeLoop b l a (b - 1)

/-- One step of the sort's `xorshift` generator (`*r ^= *r << 13; *r ^= *r >> 17;
*r ^= *r << 5`), on `uint64`. -/
def xorshiftNext (r : Nat) : Nat :=
  let r1 := (r ^^^ (r <<< 13)) % 2 ^ 64
  let r2 := (r1 ^^^ (r1 >>> 17)) % 2 ^ 64
  (r2 ^^^ (r2 <<< 5)) % 2 ^ 64

/-- Model of `bits.Len` (number of bits of `n`), structurally fueled. -/
def bitsLenAux : Nat → Nat → Nat
  | 0, _ => 0
  | fuel + 1, n => if n = 0 then 0 else bitsLenAux fuel (n / 2) + 1

/-- Model of `bits.Len(uint(n))`. -/
def bitsLen (n : Nat) : Nat := bitsLenAux (n + 1) n

/-- Model of `nextPowerOfTwo(length) = 1 << bits.Len(uint(length))`. -/
def nextPowerOfTwo (length : Nat) : Nat := 1 <<< bitsLen length

/-- Model of `breakPatterns_func`: swap three positions near the middle with
pseudo-random positions. Only reached after an unbalanced partition. -/
def pdqBreakPatterns [Inhabited α] (l : List α) (a b : Nat) : List α :=
  let length := b - a
  if 8 ≤ length then
    let modulus := nextPowerOfTwo length
    let idx := a + (length / 4) * 2 - 1
    let r1 := xorshiftNext length
    let o1 := let o := r1 &&& (modulus - 1); if o ≥ length then o - length else o
    let l1 := lswap l (idx - 1) (a + o1)
    let r2 := xorshiftNext r1
    let o2 := let o := r2 &&& (modulus - 1); if o ≥ length then o - length else o
    let l2 := lswap l1 idx (a + o2)
    let r3 := xorshiftNext r2
    let o3 := let o := r3 &&& (modulus - 1); if o ≥ length then o - length else o
    lswap l2 (idx + 1) (a + o3)
  else l

/-- Sortedness hints of `choosePivot_func`. -/
inductive Hint where
  | increasing | decreasing | unknown
deriving DecidableEq, Repr, Inhabited

/-- Model of `order2_func`: order two indices by `Less`, counting a swap. -/
def pdqOrder2 [Inhabited α] (less : α → α → Bool) (l : List α) (a b swaps : Nat) : Nat × Nat × Nat :=
  if lless less l b a then (b, a, swaps + 1) else (a, b, swaps)

/-- Model of `median_func`: median index of three, counting swaps. -/
def pdqMedian [Inhabited α] (less : α → α → Bool) (l : List α) (a b c swaps : Nat) : Nat × Nat :=
  let (a1, b1, s1) := pdqOrder2 less l a b swaps
  let (b2, _, s2) := pdqOrder2 less l b1 c s1
  let (_, b3, s3) := pdqOrder2 less l a1 b2 s2
  (b3, s3)

/-- Model of `medianAdjacent_func`. -/
def pdqMedianAdjacent [Inhabited α] (less : α → α → Bool) (l : List α) (a swaps : Nat) : Nat × Nat :=
  pdqMedian less l (a - 1) a (a + 1) swaps

/-- Model of `choosePivot_func`: pivot index and sortedness hint. -/
def pdqChoosePivot [Inhabited α] (less : α → α → Bool) (l : List α) (a b : Nat) : Nat × Hint :=
  let len := b - a
  let i := a + len / 4 * 1
  let j := a + len / 4 * 2
  let k := a + len / 4 * 3
  let (jf, swaps) :=
    if 8 ≤ len then
      if 50 ≤ len then
        let (i1, s1) := pdqMedianAdjacent less l i 0
        let (j1, s2) := pdqMedianAdjacent less l j s1
        let (k1, s3) := pdqMedianAdjacent less l k s2
        pdqMedian less l i1 j1 k1 s3
      else pdqMedian less l i j k 0
    else (j, 0)
  if swaps = 0 then (jf, Hint.increasing)
  else if swaps = 12 then (jf, Hint.decreasing)
  else (jf, Hint.unknown)

/-- Skip loop `for i <= j && data.Less(i, a) { i++ }` of `partition_func`. -/
def partSkipI [Inhabited α] (less : α → α → Bool) (l : List α) (a : Nat) : Nat → Nat → Nat → Nat
  | 0, i, _ => i
  | fuel + 1, i, j => if i ≤ j ∧ lless less l i a then partSkipI less l a fuel (i + 1) j else i

/-- Skip loop `for i <= j && !data.Less(j, a) { j-- }` of `partition_func`. -/
def partSkipJ [Inhabited α] (less : α → α → Bool) (l : List α) (a : Nat) : Nat → Nat → Nat → Nat
  | 0, _, j => j
  | fuel + 1, i, j => if i ≤ j ∧ ¬ lless less l j a then partSkipJ less l a fuel i (j - 1) else j

/-- Main exchange loop of `partition_func`. -/
def partLoop [Inhabited α] (less : α → α → Bool) (a b : Nat) : Nat → List α → Nat → Nat → List α × Nat
  | 0, l, _, j => (l, j)
  | fuel + 1, l, i, j =>
    let i1 := partSkipI less l a (b + 2) i j
    let j1 := partSkipJ less l a (b + 2) i1 j
    if i1 > j1 then (l, j1)
    else partLoop less a b fuel (lswap l i1 j1) (i1 + 1) (j1 - 1)

/-- Model of `partition_func(data, a, b, pivot)`: returns the permuted list,
the final pivot position, and the `alreadyPartitioned` flag. -/
def pdqPartition [Inhabited α] (less : α → α → Bool) (l : List α) (a b pivot : Nat) :
    List α × Nat × Bool :=
  let l0 := lswap l a pivot
  let i0 := a + 1
  let j0 := b - 1
  let i1 := partSkipI less l0 a (b + 2) i0 j0
  let j1 := partSkipJ less l0 a (b + 2) i1 j0
  if i1 > j1 then (lswap l0 j1 a, j1, true)
  else
    let l1 := lswap l0 i1 j1
    let (l2, j2) := partLoop less a b (b + 2) l1 (i1 + 1) (j1 - 1)
    (lswap l2 j2 a, j2, false)

/-- Skip loop `for i <= j && !data.Less(a, i) { i++ }` of `partitionEqual_func`. -/
def partSkipEqI [Inhabited α] (less : α → α → Bool) (l : List α) (a : Nat) : Nat → Nat → Nat → Nat
  | 0, i, _ => i
  | fuel + 1, i, j => if i ≤ j ∧ ¬ lless less l a i then partSkipEqI less l a fuel (i + 1) j else i

/-- Skip loop `for i <= j && data.Less(a, j) { j-- }` of `partitionEqual_func`. -/
def partSkipEqJ [Inhabited α] (less : α → α → Bool) (l : List α) (a : Nat) : Nat → Nat → Nat → Nat
  | 0, _, j => j
  | fuel + 1, i, j => if i ≤ j ∧ lless less l a j then partSkipEqJ less l a fuel i (j - 1) else j

/-- Exchange loop of `partitionEqual_func`. -/
def partEqLoop [Inhabited α] (less : α → α → Bool) (a b : Nat) : Nat → List α → Nat → Nat → List α × Nat
  | 0, l, i, _ => (l, i)
  | fuel + 1, l, i, j =>
    let i1 := partSkipEqI less l a (b + 2) i j
    let j1 := partSkipEqJ less l a (b + 2) i1 j
    if i1 > j1 then (l, i1)
    else partEqLoop less a b fuel (lswap l i1 j1) (i1 + 1) (j1 - 1)

/-- Model of `partitionEqual_func(data, a, b, pivot)`: returns the permuted
list and the first index of the strictly-greater suffix. -/
def pdqPartitionEqual [Inhabited α] (less : α → α → Bool) (l : List α) (a b pivot : Nat) :
    List α × Nat :=
  let l0 := lswap l a pivot
  partEqLoop less a b (b + 2) l0 (a + 1) (b - 1)

/-- Advance loop of `partialInsertionSort_func`
(`for i < b && !data.Less(i, i-1) { i++ }`): returns the final `i`. -/
def paiAdvance [Inhabited α] (less : α → α → Bool) (l : List α) (b : Nat) : Nat → Nat → Nat
  | 0, i => i
  | fuel + 1, i => if i < b ∧ ¬ lless less l i (i - 1) then paiAdvance less l b fuel (i + 1) else i

/-- Left shift loop of `partialInsertionSort_func`
(`for j := i-1; j >= 1; j-- { if !less(j, j-1) break; swap }`). -/
def paiShiftLeft [Inhabited α] (less : α → α → Bool) : Nat → List α → Nat → List α
  | 0, l, _ => l
  | fuel + 1, l, j =>
    if 1 ≤ j ∧ lless less l j (j - 1) then paiShiftLeft less fuel (lswap l j (j - 1)) (j - 1) else l

/-- Right shift loop of `partialInsertionSort_func`
(`for j := i+1; j < b; j++ { if !less(j, j-1) break; swap }`). -/
def paiShiftRight [Inhabited α] (less : α → α → Bool) (b : Nat) : Nat → List α → Nat → List α
  | 0, l, _ => l
  | fuel + 1, l, j =>
    if j < b ∧ lless less l j (j - 1) then paiShiftRight less b fuel (lswap l j (j - 1)) (j + 1) else l

/-- The bounded `maxSteps` loop of `partialInsertionSort_func`; the first
component of the state is the list, the second the persistent index `i`. -/
def paiSteps [Inhabited α] (less : α → α → Bool) (a b : Nat) : Nat → List α → Nat → List α × Bool
  | 0, l, _ => (l, false)
  | step + 1, l, i =>
    let i1 := paiAdvance less l b (b + 1) i
    if i1 = b then (l, true)
    else if b - a < 50 then (l, false)
    else
      let l1 := lswap l i1 (i1 - 1)
      let l2 := if 2 ≤ i1 - a then paiShiftLeft less i1 l1 (i1 - 1) else l1
      let l3 := if 2 ≤ b - i1 then paiShiftRight less b b l2 (i1 + 1) else l2
      paiSteps less a b step l3 i1

/-- Model of `partialInsertionSort_func(data, a, b)`: possibly-mutated list and
whether the range ended up sorted. -/
def pdqPartialInsertionSort [Inhabited α] (less : α → α → Bool) (l : List α) (a b : Nat) :
    List α × Bool :=
  paiSteps less a b 5 l (a + 1)

/-- The partition-and-recurse tail of one `pdqsort_func` loop iteration,
after the pivot is fixed: the many-duplicates fast path
(`partitionEqual_func` when the element before `a` compares equal to the
pivot), else `partition_func` followed by recursing into the shorter side
and looping on the longer one. `rec` is the sort at the next fuel level; the
loop continuation also goes through `rec`, spending one fuel unit per
iteration. -/
def pdqRecurse [Inhabited α] (less : α → α → Bool)
    (rec : List α → Nat → Nat → Nat → Bool → Bool → List α)
    (l2 : List α) (a b limit1 length pivot : Nat) (wb wp : Bool) : List α :=
  if a > 0 ∧ ¬ lless less l2 (a - 1) pivot then
    match pdqPartitionEqual less l2 a b pivot with
    | (l3, mid) => rec l3 mid b limit1 wb wp
  else
    match pdqPartition less l2 a b pivot with
    | (l3, mid, wasPartitioned1) =>
      if mid - a < b - mid then
        rec (rec l3 a mid limit1 true true) (mid + 1) b limit1
          (decide (min (mid - a) (b - mid) ≥ length / 8)) wasPartitioned1
      else
        rec (rec l3 (mid + 1) b limit1 true true) a mid limit1
          (decide (min (mid - a) (b - mid) ≥ length / 8)) wasPartitioned1

/-- One `pdqsort_func` loop iteration after pivot choice and the possible
reversal: try `partialInsertionSort_func` when the previous iteration was
balanced, partitioned, and the hint is increasing; stop if it reports the
range sorted. -/
def pdqPrepared [Inhabited α] (less : α → α → Bool)
    (rec : List α → Nat → Nat → Nat → Bool → Bool → List α)
    (l1 : List α) (a b limit1 length pivot : Nat) (hint : Hint) (wb wp : Bool) : List α :=
  if wb = true ∧ wp = true ∧ hint = Hint.increasing then
    if (pdqPartialInsertionSort less l1 a b).2 = true then (pdqPartialInsertionSort less l1 a b).1
    else pdqRecurse less rec (pdqPartialInsertionSort less l1 a b).1 a b limit1 length pivot wb wp
  else pdqRecurse less rec l1 a b limit1 length pivot wb wp

/-- Pivot choice step of one `pdqsort_func` loop iteration: on a decreasing
hint the range is reversed, the pivot mirrored and the hint becomes
increasing. -/
def pdqPivoted [Inhabited α] (less : α → α → Bool)
    (rec : List α → Nat → Nat → Nat → Bool → Bool → List α)
    (l0 : List α) (a b limit1 length : Nat) (wb wp : Bool) : List α :=
  if (pdqChoosePivot less l0 a b).2 = Hint.decreasing then
    pdqPrepared less rec (goReverseRange l0 a b) a b limit1 length
      ((b - 1) - ((pdqChoosePivot less l0 a b).1 - a)) Hint.increasing wb wp
  else
    pdqPrepared less rec l0 a b limit1 length
      (pdqChoosePivot less l0 a b).1 (pdqChoosePivot less l0 a b).2 wb wp

/-- Model of `pdqsort_func(data, a, b, limit)`. The Go function is a loop
that mutates `a`, `b`, `limit`, `wasBalanced`, `wasPartitioned` and recurses
on the shorter partition; here one `fuel` unit is spent per loop iteration
or recursive call. Every iteration strictly shrinks `b - a`, so any fuel
above `b - a + 1` per nesting level is never exhausted; `goSortSlice` passes
a safe global bound. `breakPatterns_func` runs (and `limit` is decremented)
only after an unbalanced partition. -/
def goPdqsort [Inhabited α] (less : α → α → Bool) :
    Nat → List α → Nat → Nat → Nat → Bool → Bool → List α
  | 0, l, _, _, _, _, _ => l
  | fuel + 1, l, a, b, limit, wasBalanced, wasPartitioned =>
    if b - a ≤ 12 then goInsertionSort less l a b
    else if limit = 0 then goHeapSort less l a b
    else if ¬ wasBalanced = true then
      pdqPivoted less (goPdqsort less fuel) (pdqBreakPatterns l a b) a b (limit - 1) (b - a)
        wasBalanced wasPartitioned
    else
      pdqPivoted less (goPdqsort less fuel) l a b limit (b - a) wasBalanced wasPartitioned

/-- Model of `sort.Slice(x, less)`: `pdqsort_func(lessSwap, 0, length,
bits.Len(uint(length)))`. The fuel bound `2 * length + 64` strictly exceeds
the total loop-plus-recursion chain length on every input. -/
def goSortSlice [Inhabited α] (less : α → α → Bool) (l : List α) : List α :=
  goPdqsort less (2 * l.length + 64) l 0 l.length (bitsLen l.length) true true

/-! ### Filename helpers (`helpers.ExtractYear`, `ExtractTopicsFromFilename`,
`ShouldPrioritizeDoc`) and decimal formatting (`strconv.Itoa`).

`time.Now().Year()` is an effect; the embedded analysis functions take the
current year as an explicit parameter. -/

/-- Decimal digit character. -/
def digitChar (d : Nat) : Char := Char.ofNat (48 + d)

/-- Decimal digits of `n`, most significant first (fueled, structural). -/
def natDigits : Nat → Nat → List Char
  | 0, _ => []
  | fuel + 1, n => if n < 10 then [digitChar n] else natDigits fuel (n / 10) ++ [digitChar (n % 10)]

/-- Model of `strconv.Itoa`. -/
def intToStr (i : Int) : String :=
  if i < 0 then ⟨'-' :: natDigits (i.natAbs + 1) i.natAbs⟩ else ⟨natDigits (i.natAbs + 1) i.natAbs⟩

/-- Word character of the `regexp` word boundary `\b` (`[0-9A-Za-z_]`). -/
def isWordChar (c : Char) : Bool := c.isAlphanum || c = '_'

/-- No word boundary blocks the match on this side: the neighbouring
character (if any) is not a word character. -/
def boundaryOk : Option Char → Bool
  | none => true
  | some p => ¬ isWordChar p

/-- Does `\b(19|20)\d{2}\b` match here (`prev` is the preceding character)? -/
def yearAt (prev : Option Char) : List Char → Bool
  | c1 :: c2 :: c3 :: c4 :: after =>
    ((c1 = '1' ∧ c2 = '9') ∨ (c1 = '2' ∧ c2 = '0')) ∧ c3.isDigit ∧ c4.isDigit ∧
      boundaryOk prev ∧ boundaryOk (after.head?)
  | _ => false

/-- Leftmost match scan for `ExtractYear`. -/
def extractYearAux (prev : Option Char) : List Char → String
  | [] => ""
  | c :: t => if yearAt prev (c :: t) then ⟨(c :: t).take 4⟩ else extractYearAux (some c) t

/-- Model of `helpers.ExtractYear`: leftmost `\b(19|20)\d{2}\b` match, else `""`. -/
def ExtractYear (filename : String) : String := extractYearAux none filename.data

/-- Extension of a base filename as in `filepath.Ext`: the suffix starting at
the final dot, `""` when there is no dot. -/
def extChars (l : List Char) : List Char :=
  if l.contains '.' then '.' :: (l.reverse.takeWhile (· ≠ '.')).reverse else []

/-- Model of `filepath.Ext` on a base name. -/
def goExt (name : String) : String := ⟨extChars name.data⟩

/-- Model of `strings.TrimSuffix name (filepath.Ext name)`. -/
def stripExt (l : List Char) : List Char := l.take (l.length - (extChars l).length)

/-- Removal of `\b\d+\b` digit runs (fueled scan over the original string;
`prev` is the character preceding the current position in the original). -/
def rmNumsAux : Nat → Option Char → List Char → List Char
  | 0, _, l => l
  | _ + 1, _, [] => []
  | fuel + 1, prev, c :: t =>
    if c.isDigit then
      let run := (c :: t).takeWhile (·.isDigit)
      let rest := (c :: t).dropWhile (·.isDigit)
      let keep := ¬ (boundaryOk prev ∧ boundaryOk rest.head?)
      let next := rmNumsAux fuel (some (run.getLastD c)) rest
      if keep then run ++ next else next
    else c :: rmNumsAux fuel (some c) t

/-- Whitespace split (model of `strings.Fields`), fueled. -/
def fieldsAux : Nat → List Char → List (List Char)
  | 0, _ => []
  | _ + 1, [] => []
  | fuel + 1, c :: t =>
    if c.isWhitespace then fieldsAux fuel t
    else (c :: t).takeWhile (fun d => ¬ d.isWhitespace) ::
      fieldsAux fuel ((c :: t).dropWhile (fun d => ¬ d.isWhitespace))

/-- Stop words of `ExtractTopicsFromFilename`. -/
def stopWords : List String :=
  ["the", "and", "or", "of", "a", "an", "in", "on", "at", "to", "for", "with"]

/-- Model of `helpers.ExtractTopicsFromFilename`: drop the extension, lower,
turn `[_\-.]` into spaces, delete `\b\d+\b` runs, split into fields, keep
words longer than 3 characters that are not stop words. -/
def ExtractTopicsFromFilename (filename : String) : List String :=
  let base := (stripExt filename.data).map lowerChar
  let spaced := base.map (fun c => if c = '_' || c = '-' || c = '.' then ' ' else c)
  let noNums := rmNumsAux (spaced.length + 1) none spaced
  let words := fieldsAux (noNums.length + 1) noNums
  (words.filter (fun w => 3 < w.length ∧ ¬ stopWords.contains (⟨w⟩ : String))).map (fun w => (⟨w⟩ : String))

/-- Static priority keywords of `ShouldPrioritizeDoc`. -/
def priorityKeywords : List String :=
  ["summary", "overview", "final", "important", "guide",
   "index", "table", "contents", "readme", "start", "intro", "introduction"]

/-- Model of `helpers.ShouldPrioritizeDoc` (the current year is a parameter;
the Go code reads `time.Now().Year()`). -/
def ShouldPrioritizeDoc (currentYear : Int) (filename : String) : Bool :=
  let lowerName := goToLower filename
  let priorities := priorityKeywords ++
    [intToStr (currentYear - 2), intToStr (currentYear - 1), intToStr currentYear]
  priorities.any (fun p => strContains lowerName p)

/-! ### Insight synthesis (`analysis.go`). -/

/-- The analysis record built per scan (`ContentInsight`). -/
structure ContentInsight where
  Domain : DomainType
  Topics : List String
  DateRange : String
  KeyFiles : List String
  FilesByCategory : List (String × Nat)
  Recommendations : List String
  Confidence : ℚ
deriving DecidableEq, Repr

/-- The `scoredFile` record of `findImportantDocs`. -/
structure ScoredFile where
  name : String
  score : Int
deriving DecidableEq, Inhabited, Repr

/-- The score `findImportantDocs` assigns to a document filename. -/
def docScore (currentYear : Int) (file : FileSummary) : Int :=
  let name := goToLower file.Name
  let s1 : Int := if strContains name "summary" || strContains name "overview" then 50 else 0
  let s2 : Int := if strContains name "final" || strContains name "important" then 40 else 0
  let s3 : Int := if strContains name "guide" || strContains name "handbook" then 30 else 0
  let s4 : Int :=
    if strContains name (intToStr currentYear) then 30
    else if strContains name (intToStr (currentYear - 1)) then 20
    else if strContains name (intToStr (currentYear - 2)) then 10
    else 0
  let s5 : Int := if file.Size > 1000000 then 10 else 0
  s1 + s2 + s3 + s4 + s5

/-- The scored candidate list of `findImportantDocs`: one `scoredFile` per
`.pdf`/`.docx`/`.doc` file (extensions compared lower-cased), in input order. -/
def scoredDocs (currentYear : Int) (files : List FileSummary) : List ScoredFile :=
  files.filterMap (fun f =>
    let ext := goToLower f.Extension
    if ext == ".pdf" || ext == ".docx" || ext == ".doc" then
      some ⟨f.Name, docScore currentYear f⟩
    else none)

/-- The safety-net candidates: any file over 500 000 bytes, score 0. -/
def largeFileDocs (files : List FileSummary) : List ScoredFile :=
  files.filterMap (fun f => if f.Size > 500000 then some ⟨f.Name, 0⟩ else none)

/-- The candidate list `findImportantDocs` sorts: the scored documents, or —
when there are none and the file list is not empty — the large-file safety
net. -/
def scoredCandidates (currentYear : Int) (files : List FileSummary) : List ScoredFile :=
  if (scoredDocs currentYear files).isEmpty ∧ ¬ files.isEmpty then largeFileDocs files
  else scoredDocs currentYear files

/-- Model of `findImportantDocs(files, limit)`: score the document candidates
(falling back to large files when there are none), sort with `sort.Slice` by
strictly-greater score, and return the first `limit` names. -/
def findImportantDocs (currentYear : Int) (files : List FileSummary) (limit : Nat) : List String :=
  ((goSortSlice (fun x y => x.score > y.score) (scoredCandidates currentYear files)).take
    limit).map (·.name)

/-- Tech-stack catalogue of `detectTechStack`, with each stack's trigger. -/
def stackDetected (files : List FileSummary) (stack : String) : Bool :=
  files.any (fun f =>
    let name := goToLower f.Name
    let ext := goToLower f.Extension
    if stack == "Flutter" then name == "pubspec.yaml"
    else if stack == "Node.js/JavaScript" then name == "package.json"
    else if stack == "Go" then name == "go.mod"
    else if stack == "Python" then name == "requirements.txt" || name == "pipfile"
    else if stack == "Rust" then name == "cargo.toml"
    else if stack == "Java" then name == "pom.xml" || name == "build.gradle"
    else if stack == "C/C++ (Make/CMake)" then name == "cmakelists.txt" || name == "makefile"
    else if stack == "C/C++" then ext == ".cpp" || ext == ".c" || ext == ".h" || ext == ".hpp"
    else if stack == "CUDA (NVIDIA)" then ext == ".cu"
    else false)

/-- Model of `detectTechStack`: the set of detected stacks (a Go
`map[string]bool`; iteration order is not observable in the proofs, listed
here in the order the source tests them). -/
def detectTechStack (files : List FileSummary) : List String :=
  ["Flutter", "Node.js/JavaScript", "Go", "Python", "Rust", "Java",
   "C/C++ (Make/CMake)", "C/C++", "CUDA (NVIDIA)"].filter (stackDetected files)

/-- Entry-point filenames of `extractSoftwareInsights`. -/
def entryPoints : List String :=
  ["main.dart", "main.go", "index.js", "index.html", "app.py", "main.py"]

/-- Model of `extractSoftwareInsights`. -/
def extractSoftwareInsights (insight : ContentInsight) (files : List FileSummary) : ContentInsight :=
  let keyFiles0 := files.flatMap (fun f =>
    entryPoints.filterMap (fun e => if goToLower f.Name == e then some f.Name else none))
  let keyFiles1 :=
    match files.find? (fun f => goToLower f.Name == "readme.md") with
    | some f => f.Name :: keyFiles0
    | none => keyFiles0
  let keyFiles2 := if keyFiles1.isEmpty then ["Look in the src/ or lib/ directory"] else keyFiles1
  { insight with
    Topics := detectTechStack files
    KeyFiles := keyFiles2
    Recommendations :=
      ["Read README.md first if available",
       "Check the main entry point to understand flow",
       "Review package/dependency files for tech stack"] }

/-- Lexicographic character-list order (Go `<` on strings, byte order: the
strings compared are ASCII year digits). -/
def strLtL : List Char → List Char → Bool
  | [], [] => false
  | [], _ :: _ => true
  | _ :: _, [] => false
  | c :: cs, d :: ds => if c = d then strLtL cs ds else decide (c < d)

/-- Go string `<`. -/
def strLt (a b : String) : Bool := strLtL a.data b.data

/-- Model of the year-range fold in `extractDocumentInsights`: the map-key
fold computing the minimum and maximum year strings. -/
def yearRange (years : List String) : String :=
  match years with
  | [] => ""
  | y :: ys =>
    let mn := ys.foldl (fun m y1 => if strLt y1 m then y1 else m) y
    let mx := ys.foldl (fun m y1 => if strLt m y1 then y1 else m) y
    if mn = mx then mn else mn ++ "-" ++ mx

/-- Model of `extractDocumentInsights`. The Go topic/year maps are modelled by
first-occurrence-deduplicated lists (map iteration order is not observable in
the proved properties). -/
def extractDocumentInsights (currentYear : Int) (insight : ContentInsight)
    (files : List FileSummary) : ContentInsight :=
  let docs := files.filter (fun f => f.Extension == ".pdf" || f.Extension == ".docx")
  let topics := (docs.flatMap (fun f => ExtractTopicsFromFilename f.Name)).eraseDups
  let years := (docs.filterMap (fun f =>
    let y := ExtractYear f.Name
    if y == "" then none else some y)).eraseDups
  let keyFiles0 := (docs.filter (fun f => ShouldPrioritizeDoc currentYear f.Name)).map (·.Name)
  let keyFiles1 :=
    if keyFiles0.isEmpty then findImportantDocs currentYear files 3
    else if keyFiles0.length > 5 then keyFiles0.take 5
    else keyFiles0
  { insight with
    Topics := topics
    DateRange := yearRange years
    KeyFiles := keyFiles1
    Recommendations :=
      ["Start with the most recent documents",
       "Look for summary or overview files first",
       "Organize by topic or date if needed"] }

/-- The counting loop of `extractMediaInsights`: `(image, video, audio)`
counters updated per file by the `if/else if` chain. -/
def mediaCounts (files : List FileSummary) : Nat × Nat × Nat :=
  files.foldl (fun (acc : Nat × Nat × Nat) file =>
    let ext := goToLower file.Extension
    if IsImageFile ext then (acc.1 + 1, acc.2.1, acc.2.2)
    else if IsVideoFile ext then (acc.1, acc.2.1 + 1, acc.2.2)
    else if IsAudioFile ext then (acc.1, acc.2.1, acc.2.2 + 1)
    else acc) (0, 0, 0)

/-- Model of `extractMediaInsights`. -/
def extractMediaInsights (insight : ContentInsight) (files : List FileSummary) : ContentInsight :=
  if (mediaCounts files).1 > (mediaCounts files).2.1 ∧ (mediaCounts files).1 > (mediaCounts files).2.2 then
    { insight with Topics := ["photos", "images"],
                   Recommendations := ["Browse through and enjoy the memories! 📸"] }
  else if (mediaCounts files).2.1 > 0 then
    { insight with Topics := ["videos"],
                   Recommendations := ["Grab some popcorn and enjoy! 🍿"] }
  else if (mediaCounts files).2.2 > 0 then
    { insight with Topics := ["music", "audio"],
                   Recommendations := ["Put on your headphones and vibe! 🎵"] }
  else insight

/-- Financial topic families of `extractFinancialInsights`, with triggers. -/
def financialTopicDetected (files : List FileSummary) (topic : String) : Bool :=
  files.any (fun f =>
    let name := goToLower f.Name
    if topic == "taxes" then strContains name "tax" || strContains name "assessment"
    else if topic == "invoices/receipts" then
      strContains name "invoice" || strContains name "receipt"
    else if topic == "bank statements" then
      strContains name "statement" || strContains name "bank"
    else if topic == "payroll" then
      strContains name "payroll" || strContains name "salary"
    else false)

/-- Model of `extractFinancialInsights`. -/
def extractFinancialInsights (insight : ContentInsight) (files : List FileSummary) : ContentInsight :=
  { insight with
    Topics := ["taxes", "invoices/receipts", "bank statements", "payroll"].filter
      (financialTopicDetected files)
    Recommendations :=
      ["Organize by year and category",
       "Keep tax documents separate and secure",
       "Back up important financial records"] }

/-- Model of `extractCreativeInsights`. -/
def extractCreativeInsights (insight : ContentInsight) : ContentInsight :=
  { insight with
    Topics := ["creative work", "design assets"]
    Recommendations :=
      ["Browse through for inspiration",
       "Consider organizing by project or date",
       "Keep high-res originals backed up"] }

/-- The `fileScore` record of `extractMixedInsights`. -/
structure FileSizeEntry where
  name : String
  size : Int
deriving DecidableEq, Inhabited, Repr

/-- Model of `extractMixedInsights`: highlight the largest files, sorted with
`sort.Slice` by strictly-greater size, taking `min(len, 3)`. -/
def extractMixedInsights (insight : ContentInsight) (files : List FileSummary) : ContentInsight :=
  let sorted := goSortSlice (fun x y => x.size > y.size)
    (files.map (fun f => (⟨f.Name, f.Size⟩ : FileSizeEntry)))
  let limit := min sorted.length 3
  { insight with
    Topics := ["various files"]
    KeyFiles := (sorted.take limit).map (·.name)
    Recommendations := ["Check the largest files first", "Sort by file type to organize"] }

/-- The `scout.DirectorySummary` fields used by the analysis phase. -/
structure DirectorySummary where
  Directory : String
  FileCount : Int
  Subdirectories : List String
  Files : List FileSummary
deriving DecidableEq, Repr

/-- The `ContentInsight` as first assembled by `AnalyzeDirectory` (initial
empty lists, then domain, histogram and confidence), before the
domain-specific synthesizer runs. -/
def baseInsight (summary : DirectorySummary) : ContentInsight :=
  { Domain := detectDomain (categorizeFiles summary.Files) summary.Files
    Topics := []
    DateRange := ""
    KeyFiles := []
    FilesByCategory := categorizeFiles summary.Files
    Recommendations := []
    Confidence := calculateConfidence (categorizeFiles summary.Files) }

/-- Model of `AnalyzeDirectory` (the current year is a parameter; it reaches
`ShouldPrioritizeDoc` and `findImportantDocs` through the documents branch).
The `switch` scrutinee `insight.Domain` is by construction the detected
domain. -/
def AnalyzeDirectory (currentYear : Int) (summary : DirectorySummary) : ContentInsight :=
  match detectDomain (categorizeFiles summary.Files) summary.Files with
  | DomainType.software => extractSoftwareInsights (baseInsight summary) summary.Files
  | DomainType.documents => extractDocumentInsights currentYear (baseInsight summary) summary.Files
  | DomainType.study => extractDocumentInsights currentYear (baseInsight summary) summary.Files
  | DomainType.media => extractMediaInsights (baseInsight summary) summary.Files
  | DomainType.financial => extractFinancialInsights (baseInsight summary) summary.Files
  | DomainType.creative => extractCreativeInsights (baseInsight summary)
  | _ => extractMixedInsights (baseInsight summary) summary.Files

/-! ### Scanner (`internal/scanner/scanner.go`)

`ScanDirectory` drives `filepath.WalkDir` with a callback. The filesystem is
modelled as a tree in which each attempted I/O operation carries its possible
failure: a file's `d.Info()` result is an `Option` (a `none` models a stat
failure, e.g. a broken symlink or a file removed mid-walk), a directory's
entry list is an `Option` (a `none` models a `ReadDir` permission error), and
the root itself is an `Option FSNode` (a `none` models `os.Lstat(root)`
failing: nonexistent or unreadable root). `filepath.WalkDir` semantics
(Go ≥ 1.20): a root lstat error is passed to the callback; a `ReadDir` error
is passed to the callback in a second call for that directory; the callback's
`SkipDir` on a directory skips descending only; the callback's returned error
aborts the walk and becomes `WalkDir`'s result. The callback's
`info.Size()` call on a failed `d.Info()` dereferences a nil interface and
panics; a panic is modelled by an outer `none`. -/

/-- Filesystem entry kind (`scanner.FileType`). -/
inductive FileType where
  | file | directory
deriving DecidableEq, Repr, Inhabited

/-- One scanned file (`scanner.FileInfo`). -/
structure FileInfo where
  Name : String
  Path : String
  «Type» : FileType
  FileExt : String
  Size : Int
deriving DecidableEq, Repr, Inhabited

/-- A whole-directory scan (`scanner.ScanResult`). -/
structure ScanResult where
  Path : String
  Files : List FileInfo
  Subdirectories : List String
deriving DecidableEq, Repr

/-- A filesystem tree with error sites. -/
inductive FSNode where
  | file (name : String) (stat : Option Int)
  | dir (name : String) (entries : Option (List FSNode))
deriving Repr

/-- Name of a node (`d.Name()`). -/
def FSNode.name : FSNode → String
  | .file n _ => n
  | .dir n _ => n

/-- Is the node a directory (`d.IsDir()`)? -/
def FSNode.isDir : FSNode → Bool
  | .file _ _ => false
  | .dir _ _ => true

/-- The stat result of a file node (`d.Info()`), unused for directories. -/
def FSNode.stat : FSNode → Option Int
  | .file _ s => s
  | .dir _ _ => none

/-- Does the Go string start with `pre`? (`strings.HasPrefix`). -/
def strStarts (s pre : String) : Bool := strStartsL s.data pre.data

/-- Control value returned by a `fs.WalkDirFunc`. -/
inductive WalkCtl where
  | cont | skipDir
deriving DecidableEq, Repr

/-- Walk accumulator: the `summary.Files` and `summary.Subdirectories`
appends performed by the callback. -/
structure ScanState where
  files : List FileInfo
  subs : List String
deriving DecidableEq, Repr

/-- Model of `filepath.Join` adequate for the paths stored here. -/
def joinPath (dir name : String) : String := dir ++ "/" ++ name

/-- The walk callback of `ScanDirectory`, exactly in source order: swallow a
reported per-entry error; skip dot entries (`SkipDir` for dot directories);
record non-root directories; record regular files with lower-cased extension
and the `d.Info()` size. The result is `none` when the callback panics
(`info.Size()` with `info` a nil interface after a failed `d.Info()`). -/
def walkFn (root path : String) (entry : Option FSNode) (err : Option String)
    (st : ScanState) : Option (ScanState × WalkCtl) :=
  if err.isSome then some (st, WalkCtl.cont)
  else
    match entry with
    | none => some (st, WalkCtl.cont)
    | some d =>
      let name := d.name
      if strStarts name "." then
        if d.isDir then some (st, WalkCtl.skipDir) else some (st, WalkCtl.cont)
      else if d.isDir ∧ path ≠ root then
        some ({ st with subs := st.subs ++ [path] }, WalkCtl.cont)
      else if ¬ d.isDir then
        match d.stat with
        | some size =>
          some ({ st with files := st.files ++
            [⟨name, path, FileType.file, goToLower (goExt name), size⟩] }, WalkCtl.cont)
        | none => none
      else some (st, WalkCtl.cont)

mutual

/-- `walkDir` of `filepath.WalkDir` on one node: call the callback; descend
into readable non-skipped directories; report a `ReadDir` failure to the
callback a second time. `none` models a panic escaping the walk. -/
def walkNode (root path : String) (st : ScanState) : FSNode → Option ScanState
  | FSNode.file name stat =>
    match walkFn root path (some (FSNode.file name stat)) none st with
    | none => none
    | some (st1, _) => some st1
  | FSNode.dir name entries =>
    match walkFn root path (some (FSNode.dir name entries)) none st with
    | none => none
    | some (st1, WalkCtl.skipDir) => some st1
    | some (st1, WalkCtl.cont) =>
      match entries with
      | none =>
        match walkFn root path (some (FSNode.dir name entries)) (some "readdir error") st1 with
        | none => none
        | some (st2, _) => some st2
      | some es => walkList root path st1 es

/-- The sibling loop of `walkDir`. -/
def walkList (root dirPath : String) (st : ScanState) : List FSNode → Option ScanState
  | [] => some st
  | n :: rest =>
    match walkNode root (joinPath dirPath n.name) st n with
    | none => none
    | some st1 => walkList root dirPath st1 rest

end

/-- Model of `scanner.ScanDirectory`. The root argument is `none` when
`os.Lstat(root)` fails (nonexistent/unreadable root); `filepath.WalkDir` then
calls the callback once with that error. The walk callback never returns an
error value (every branch returns `nil` or `SkipDir`), so `WalkDir` always
returns `nil` and the `if err != nil` branch of `ScanDirectory` is dead; the
outer `Option` is `none` only for the modelled panic. -/
def ScanDirectory (rootPath : String) (root : Option FSNode) :
    Option (Except String ScanResult) :=
  match root with
  | none =>
    match walkFn rootPath rootPath none (some "lstat error") ⟨[], []⟩ with
    | none => none
    | some (st, _) => some (Except.ok ⟨rootPath, st.files, st.subs⟩)
  | some node =>
    match walkNode rootPath rootPath ⟨[], []⟩ node with
    | none => none
    | some st => some (Except.ok ⟨rootPath, st.files, st.subs⟩)

/-! ### The extraction pipeline (`internal/scout/scout.go` `Run`)

Per-file extraction is I/O; the embedded `Run` takes the extraction outcome
as an oracle from `FileInfo` to `Except`. The `Details` map of
`ExtractedContent` is not read by `Run` and is omitted. -/

/-- Extractor output (`extractor.ExtractedContent`, the fields `Run` reads). -/
structure ExtractedContent where
  Category : String
  Preview : String
  Lines : Int
deriving DecidableEq, Repr

/-- One summarized file (`scout.FileSummary` as built by `Run`: name,
category tag, size, and optional metadata `(preview, lines)`). -/
structure RunFileSummary where
  Name : String
  «Type» : String
  Size : Int
  Metadata : Option (String × Int)
deriving DecidableEq, Repr

/-- The per-file body of `Run`'s loop: on extraction error the file is kept
with category `"unknown"` and no metadata. -/
def mkFileSummary (extract : FileInfo → Except String ExtractedContent)
    (file : FileInfo) : RunFileSummary :=
  match extract file with
  | Except.error _ => ⟨file.Name, "unknown", file.Size, none⟩
  | Except.ok c => ⟨file.Name, c.Category, file.Size, some (c.Preview, c.Lines)⟩

/-- `Run`'s loop over the scanned files (directory-typed entries are skipped). -/
def runSummaries (extract : FileInfo → Except String ExtractedContent) :
    List FileInfo → List RunFileSummary
  | [] => []
  | f :: rest =>
    if f.«Type» = FileType.directory then runSummaries extract rest
    else mkFileSummary extract f :: runSummaries extract rest

/-- The summary record `Run` returns. -/
structure RunDirectorySummary where
  Directory : String
  FileCount : Int
  Subdirectories : List String
  Files : List RunFileSummary
deriving DecidableEq, Repr

/-- Model of `scout.Run` after a successful scan: the scan result is the
first argument and the extraction oracle the second. -/
def Run (extract : FileInfo → Except String ExtractedContent)
    (dir : ScanResult) : RunDirectorySummary :=
  ⟨dir.Path, (dir.Files.length : Int), dir.Subdirectories, runSummaries extract dir.Files⟩

/-! ### Auxiliary definitions for the verification: a reference stable sort
and the concrete inputs used by counterexamples and witnesses. -/

/-! ### Reference stable insertion sort and the bridge to `goInsertionSort`.

`sort.Slice` delegates to insertion sort whenever the range has at most 12
elements, and insertion sort is stable. The reference sort below inserts each
element behind the equal-or-greater prefix of the accumulator; the bridge
lemmas show `goInsertionSort` over the whole slice computes exactly this
fold. -/

/-- Insert `x` into the reversed accumulator: walk past the elements `x` is
strictly `less` than (they sit behind `x` once un-reversed). -/
def insRev (less : α → α → Bool) (x : α) : List α → List α
  | [] => [x]
  | y :: t => if less x y then y :: insRev less x t else x :: y :: t

/-- One stable insertion step: bubble `x` left from the end of `l` while it is
`less` than its predecessor. -/
def insStable (less : α → α → Bool) (x : α) (l : List α) : List α :=
  (insRev less x l.reverse).reverse

/-- Reference stable insertion sort: fold stable insertions over the list. -/
def stableSort (less : α → α → Bool) (l : List α) : List α :=
  l.foldl (fun acc x => insStable less x acc) []

/-- 13 equal-size PDF files; scores tie in several groups. -/
def docFiles13 : List FileSummary :=
  [⟨"guide_a.pdf", ".pdf", 100⟩, ⟨"doc_2024_b.pdf", ".pdf", 100⟩,
   ⟨"summaryguide_c.pdf", ".pdf", 100⟩, ⟨"final_2025_d.pdf", ".pdf", 100⟩,
   ⟨"notes_e.pdf", ".pdf", 100⟩, ⟨"final_summary_f.pdf", ".pdf", 100⟩,
   ⟨"doc_2024_g.pdf", ".pdf", 100⟩, ⟨"guide_h.pdf", ".pdf", 100⟩,
   ⟨"final_summary_i.pdf", ".pdf", 100⟩, ⟨"notes_j.pdf", ".pdf", 100⟩,
   ⟨"final_summary_k.pdf", ".pdf", 100⟩, ⟨"final_summary_l.pdf", ".pdf", 100⟩,
   ⟨"final_2025_m.pdf", ".pdf", 100⟩]

/-- Three equal-size PDF files with a score tie between the `notes` pair. -/
def docFiles3 : List FileSummary :=
  [⟨"notes_a.pdf", ".pdf", 100⟩, ⟨"summary_b.pdf", ".pdf", 100⟩,
   ⟨"notes_c.pdf", ".pdf", 100⟩]

/-- The media file list refuting C9 as stated: one video and three audio
files (audio dominates by majority). -/
def mediaFiles4 : List FileSummary :=
  [⟨"clip.mp4", ".mp4", 10⟩, ⟨"song1.mp3", ".mp3", 10⟩,
   ⟨"song2.mp3", ".mp3", 10⟩, ⟨"song3.mp3", ".mp3", 10⟩]

/-- Witness oracle failing on every file. -/
def failingExtract : FileInfo → Except String ExtractedContent :=
  fun _ => Except.error "boom"

/-- The one-file summary (just `go.mod`) refuting C5 as stated. -/
def goModOnly : DirectorySummary := ⟨"/p", 1, [], [⟨"go.mod", ".mod", 100⟩]⟩

/-- A two-file software summary whose key file is a real entry point. -/
def mainGoProject : DirectorySummary :=
  ⟨"/p", 2, [], [⟨"go.mod", ".mod", 50⟩, ⟨"main.go", ".go", 10⟩]⟩

/-! ### Helper lemmas: counting into disjoint categories. -/

/-- Sum distributes over a pointwise sum of mapped functions. -/
theorem sum_map_add_nat (cs : List β) (f g : β → Nat) :
    (cs.map (fun c => f c + g c)).sum = (cs.map f).sum + (cs.map g).sum := by
  induction cs with
  | nil => simp
  | cons c cs ih => simp [ih]; omega

/-- An indicator sum over a duplicate-free list containing `a` is 1. -/
theorem sum_indicator_nodup (cs : List String) (a : String) (hnd : cs.Nodup) (ha : a ∈ cs) :
    (cs.map (fun c => if a = c then 1 else 0)).sum = 1 := by
  induction cs with
  | nil => cases ha
  | cons c cs ih =>
    rcases List.mem_cons.mp ha with h | h
    · subst h
      have hz : (cs.map (fun c => if a = c then 1 else 0)).sum = 0 := by
        apply List.sum_eq_zero
        intro x hx
        rcases List.mem_map.mp hx with ⟨c', hc', rfl⟩
        have hne : a ≠ c' := fun h => (List.nodup_cons.mp hnd).1 (h ▸ hc')
        simp [hne]
      simp [hz]
    · have hne : a ≠ c := fun hc => (List.nodup_cons.mp hnd).1 (hc ▸ h)
      have hs := ih (List.nodup_cons.mp hnd).2 h
      simp [hne, hs]

/-- Counting a list into any duplicate-free list of categories covering the
range of `g` recovers the list's length. -/
theorem sum_countP_eq_length (cs : List String) (g : FileSummary → String)
    (l : List FileSummary) (hnd : cs.Nodup) (hg : ∀ x ∈ l, g x ∈ cs) :
    (cs.map (fun c => l.countP (fun x => g x == c))).sum = l.length := by
  induction l with
  | nil => simp [List.countP_nil]
  | cons x l ih =>
    have hx : g x ∈ cs := hg x (List.mem_cons_self x l)
    have ihl := ih (fun y hy => hg y (List.mem_cons_of_mem x hy))
    simp only [List.countP_cons, beq_iff_eq]
    rw [sum_map_add_nat cs (fun c => l.countP (fun y => g y == c))
      (fun c => if g x = c then 1 else 0), ihl,
      sum_indicator_nodup cs (g x) hnd hx, List.length_cons]

set_option maxHeartbeats 1000000 in
/-- The `switch` always produces one of the twelve labels. -/
theorem categorizeExtName_mem (e n : String) : categorizeExtName e n ∈ allCategories := by
  unfold categorizeExtName
  split_ifs <;> simp [allCategories]

/-- Every file lands in one of the twelve categories. -/
theorem categorizeFile_mem (f : FileSummary) : categorizeFile f ∈ allCategories :=
  categorizeExtName_mem _ _

/-- Dropping the zero-count categories does not change the sum. -/
theorem filterMap_entry_sum (cs : List String) (cnt : String → Nat) :
    ((cs.filterMap (fun c => if cnt c = 0 then none else some (c, cnt c))).map (·.2)).sum
      = (cs.map cnt).sum := by
  induction cs with
  | nil => simp
  | cons c cs ih =>
    by_cases h : cnt c = 0 <;> simp [List.filterMap_cons, h, ih]

/-- Claim C2: for every file list, the category histogram of
`categorizeFiles` sums to the number of files: the rules of the
`switch` are mutually exclusive, first match wins, and each file is counted
exactly once. -/
theorem categorizeFiles_total (files : List FileSummary) :
    hTotal (categorizeFiles files) = files.length := by
  unfold hTotal categorizeFiles
  rw [filterMap_entry_sum]
  exact sum_countP_eq_length _ categorizeFile files (by decide)
    (fun x _ => categorizeFile_mem x)

/-! ### Confidence lemmas (claim C6). -/

/-- The single accumulation pass of `calculateConfidence` computes the sum
and the running maximum of the histogram values. -/
theorem confAcc_foldl (cats : List (String × Nat)) :
    ∀ t0 d0 : Nat, cats.foldl (fun (acc : Nat × Nat) e => (acc.1 + e.2, max acc.2 e.2)) (t0, d0)
      = (t0 + (cats.map (·.2)).sum, (cats.map (·.2)).foldl max d0) := by
  induction cats with
  | nil => intro t0 d0; simp
  | cons e t ih =>
    intro t0 d0
    simp only [List.foldl_cons, List.map_cons, List.sum_cons, ih, List.foldl_cons]
    simp [Nat.add_assoc]

/-- `confAcc` returns the total and the maximum histogram value. -/
theorem confAcc_eq (cats : List (String × Nat)) :
    confAcc cats = (hTotal cats, (cats.map (·.2)).foldl max 0) := by
  unfold confAcc hTotal
  rw [confAcc_foldl]
  simp

/-- A running maximum of naturals is bounded by seed plus sum. -/
theorem foldl_max_le_add_sum (l : List Nat) : ∀ a : Nat, l.foldl max a ≤ a + l.sum := by
  induction l with
  | nil => simp
  | cons x t ih =>
    intro a
    calc (x :: t).foldl max a = t.foldl max (max a x) := rfl
    _ ≤ max a x + t.sum := ih (max a x)
    _ ≤ a + (x :: t).sum := by
        have : max a x ≤ a + x := max_le (Nat.le_add_right a x) (Nat.le_add_left x a)
        simp only [List.sum_cons]
        omega

/-- The seed never exceeds a running maximum. -/
theorem le_foldl_max (l : List Nat) : ∀ a : Nat, a ≤ l.foldl max a := by
  induction l with
  | nil => simp
  | cons x t ih =>
    intro a
    calc a ≤ max a x := Nat.le_max_left a x
    _ ≤ t.foldl max (max a x) := ih (max a x)

/-- Every element is bounded by the running maximum. -/
theorem mem_le_foldl_max (l : List Nat) (x : Nat) (hx : x ∈ l) : ∀ a : Nat, x ≤ l.foldl max a := by
  induction l with
  | nil => cases hx
  | cons y t ih =>
    intro a
    rcases List.mem_cons.mp hx with h | h
    · subst h
      calc x ≤ max a x := Nat.le_max_right a x
      _ ≤ t.foldl max (max a x) := le_foldl_max t (max a x)
    · exact ih h (max a y)

/-- Every histogram entry produced by `categorizeFiles` is positive. -/
theorem categorizeFiles_pos (files : List FileSummary) :
    ∀ e ∈ categorizeFiles files, 0 < e.2 := by
  intro e he
  unfold categorizeFiles at he
  rcases List.mem_filterMap.mp he with ⟨c, _, hsome⟩
  by_cases h : files.countP (fun f => categorizeFile f == c) = 0
  · simp [h] at hsome
  · simp [h, Prod.ext_iff] at hsome
    omega

/-- A histogram with positive entries has positive total unless empty. -/
theorem hTotal_pos (h : List (String × Nat)) (hpos : ∀ e ∈ h, 0 < e.2) (hne : h ≠ []) :
    0 < hTotal h := by
  cases h with
  | nil => exact absurd rfl hne
  | cons e t =>
    have h1 : 0 < e.2 := hpos e (List.mem_cons_self e t)
    unfold hTotal
    simp only [List.map_cons, List.sum_cons]
    omega

/-- A histogram with positive entries has a positive maximum unless empty. -/
theorem hMax_pos (h : List (String × Nat)) (hpos : ∀ e ∈ h, 0 < e.2) (hne : h ≠ []) :
    0 < (h.map (·.2)).foldl max 0 := by
  cases h with
  | nil => exact absurd rfl hne
  | cons e t =>
    have h1 : 0 < e.2 := hpos e (List.mem_cons_self e t)
    have h2 : e.2 ≤ ((e :: t).map (·.2)).foldl max 0 :=
      mem_le_foldl_max _ e.2 (by simp) 0
    omega

/-- Claim C6: `calculateConfidence` of the histogram of any file list equals
(largest single category count)/(total count), lies in `[0, 1]`, and is 0
exactly when the histogram is empty. -/
theorem calculateConfidence_spec (files : List FileSummary) :
    calculateConfidence (categorizeFiles files)
        = (((((categorizeFiles files).map (·.2)).foldl max 0 : ℕ)) : ℚ)
          / ((hTotal (categorizeFiles files) : ℕ) : ℚ) ∧
    0 ≤ calculateConfidence (categorizeFiles files) ∧
    calculateConfidence (categorizeFiles files) ≤ 1 ∧
    (calculateConfidence (categorizeFiles files) = 0 ↔ categorizeFiles files = []) := by
  have hpos := categorizeFiles_pos files
  revert hpos
  generalize categorizeFiles files = h
  intro hpos
  by_cases hne : h = []
  · subst hne
    norm_num [calculateConfidence, confAcc, hTotal]
  · have htot : 0 < hTotal h := hTotal_pos h hpos hne
    have hmax : 0 < (h.map (·.2)).foldl max 0 := hMax_pos h hpos hne
    have hmaxle : (h.map (·.2)).foldl max 0 ≤ hTotal h := by
      have := foldl_max_le_add_sum (h.map (·.2)) 0
      unfold hTotal
      omega
    have hconf : calculateConfidence h
        = ((((h.map (·.2)).foldl max 0 : ℕ)) : ℚ) / ((hTotal h : ℕ) : ℚ) := by
      unfold calculateConfidence
      rw [confAcc_eq]
      simp [Nat.pos_iff_ne_zero.mp htot]
    have htotq : (0 : ℚ) < ((hTotal h : ℕ) : ℚ) := by exact_mod_cast htot
    have hmaxq : (0 : ℚ) < ((((h.map (·.2)).foldl max 0 : ℕ)) : ℚ) := by exact_mod_cast hmax
    refine ⟨hconf, ?_, ?_, ?_⟩
    · rw [hconf]; positivity
    · rw [hconf, div_le_one htotq]
      exact_mod_cast hmaxle
    · rw [hconf]
      constructor
      · intro hzero
        exact absurd hzero (ne_of_gt (div_pos hmaxq htotq))
      · intro hnil
        exact absurd hnil hne

/-! ### Claim C1: branch order of `detectDomain`. -/

/-- Claim C1: `detectDomain` evaluates its branches in the fixed order, the
first satisfied branch wins, and the result is `empty` exactly when the
total categorized count is 0. The branch guards are exactly the claim's:
software on a case-insensitive project-marker filename or
(code+config)/total > 0.3; else the document family on
(pdf+word+text)/total > 0.5 (study at ≥3 study-keyword files, else financial
at ≥2 financial-keyword files, else documents); else creative/media on
(image+video+audio)/total > 0.7; else financial on spreadsheet/total > 0.4;
else mixed. -/
theorem detectDomain_branch_order (cats : List (String × Nat)) (files : List FileSummary) :
    (detectDomain cats files = DomainType.empty ↔ hTotal cats = 0) ∧
    (hTotal cats ≠ 0 →
      ((hasProjectMarkers files = true ∨ codePercent cats > 3/10) →
          detectDomain cats files = DomainType.software) ∧
      (¬ (hasProjectMarkers files = true ∨ codePercent cats > 3/10) →
        (docPercent cats > 1/2 →
          (hasStudyKeywords files = true → detectDomain cats files = DomainType.study) ∧
          (hasStudyKeywords files = false → hasFinancialKeywords files = true →
              detectDomain cats files = DomainType.financial) ∧
          (hasStudyKeywords files = false → hasFinancialKeywords files = false →
              detectDomain cats files = DomainType.documents)) ∧
        (¬ docPercent cats > 1/2 →
          (mediaPercent cats > 7/10 →
            detectDomain cats files = DomainType.creative ∨
              detectDomain cats files = DomainType.media) ∧
          (¬ mediaPercent cats > 7/10 →
            (spreadsheetPercent cats > 2/5 → detectDomain cats files = DomainType.financial) ∧
            (¬ spreadsheetPercent cats > 2/5 → detectDomain cats files = DomainType.mixed))))) := by
  constructor
  · constructor
    · intro h
      by_contra htot
      unfold detectDomain at h
      split_ifs at h
    · intro h
      unfold detectDomain
      simp [h]
  · intro htot
    refine ⟨?_, ?_⟩
    · intro hsw
      simp [detectDomain, htot, hsw]
    · intro hsw
      refine ⟨?_, ?_⟩
      · intro hdoc
        have hdoc' := not_le.mpr hdoc
        refine ⟨?_, ?_, ?_⟩
        · intro hst
          simp [detectDomain, htot, hsw, hdoc, hdoc', hst]
          intro h2; linarith
        · intro hst hfin
          simp [detectDomain, htot, hsw, hdoc, hdoc', hst, hfin]
          intro h2; linarith
        · intro hst hfin
          simp [detectDomain, htot, hsw, hdoc, hdoc', hst, hfin]
          intro h2; linarith
      · intro hdoc
        have hdoc2 := not_lt.mp hdoc
        refine ⟨?_, ?_⟩
        · intro hm
          have hm' := not_le.mpr hm
          by_cases hcr : hGet cats "image" > hGet cats "video" + hGet cats "audio"
              ∧ hasCreativeKeywords files = true
          · left
            simp [detectDomain, htot, hsw, hdoc, hdoc2, hm, hm', hcr]
            intro h2; linarith
          · right
            simp [detectDomain, htot, hsw, hdoc, hdoc2, hm, hm', hcr]
            intro h2; linarith
        · intro hm
          have hm2 := not_lt.mp hm
          refine ⟨?_, ?_⟩
          · intro hss
            have hss' := not_le.mpr hss
            simp [detectDomain, htot, hsw, hdoc, hdoc2, hm, hm2, hss, hss']
            intro h2; linarith
          · intro hss
            have hss2 := not_lt.mp hss
            simp [detectDomain, htot, hsw, hdoc, hdoc2, hm, hm2, hss, hss2]
            intro h2; linarith

/-- Witness for C1 at a concrete input: a single `go.mod` file (a project
marker), classified software through the marker disjunct. -/
theorem detectDomain_branch_order_witness :
    hTotal (categorizeFiles [⟨"go.mod", ".mod", 100⟩]) ≠ 0 ∧
    detectDomain (categorizeFiles [⟨"go.mod", ".mod", 100⟩]) [⟨"go.mod", ".mod", 100⟩]
      = DomainType.software :=
  ⟨by decide,
    ((detectDomain_branch_order (categorizeFiles [⟨"go.mod", ".mod", 100⟩])
        [⟨"go.mod", ".mod", 100⟩]).2 (by decide)).1 (Or.inl (by decide))⟩

/-! ### Claim C10: the empty directory. -/

/-- Claim C10: a `DirectorySummary` with no files gets domain `empty`,
confidence 0, and the default (mixed) synthesizer output: topics
`["various files"]`, no key files, the mixed recommendations. -/
theorem analyzeDirectory_empty (currentYear : Int) (dir : String) (fc : Int)
    (subs : List String) :
    AnalyzeDirectory currentYear ⟨dir, fc, subs, []⟩ =
      { Domain := DomainType.empty
        Topics := ["various files"]
        DateRange := ""
        KeyFiles := []
        FilesByCategory := []
        Recommendations := ["Check the largest files first", "Sort by file type to organize"]
        Confidence := 0 } := rfl

/-! ### Claim C9: `extractMediaInsights`. -/

/-- The counting loop of `extractMediaInsights` computes, via its `else if`
chain, the image count, the non-image video count and the
non-image non-video audio count. -/
theorem mediaCounts_countP (files : List FileSummary) : ∀ a b c : Nat,
    files.foldl (fun (acc : Nat × Nat × Nat) file =>
      let ext := goToLower file.Extension
      if IsImageFile ext then (acc.1 + 1, acc.2.1, acc.2.2)
      else if IsVideoFile ext then (acc.1, acc.2.1 + 1, acc.2.2)
      else if IsAudioFile ext then (acc.1, acc.2.1, acc.2.2 + 1)
      else acc) (a, b, c)
    = (a + files.countP (fun f => IsImageFile (goToLower f.Extension)),
       b + files.countP (fun f =>
         !IsImageFile (goToLower f.Extension) && IsVideoFile (goToLower f.Extension)),
       c + files.countP (fun f =>
         !IsImageFile (goToLower f.Extension) && !IsVideoFile (goToLower f.Extension)
           && IsAudioFile (goToLower f.Extension))) := by
  induction files with
  | nil => intro a b c; simp
  | cons f t ih =>
    intro a b c
    by_cases hI : IsImageFile (goToLower f.Extension) = true
    · simp only [List.foldl_cons, List.countP_cons, hI]
      simp only [ih]
      simp [hI]
      omega
    · by_cases hV : IsVideoFile (goToLower f.Extension) = true
      · simp only [List.foldl_cons, List.countP_cons]
        simp only [Bool.not_eq_true] at hI
        simp only [hI, hV]
        simp only [ih]
        simp [hI, hV]
        omega
      · by_cases hA : IsAudioFile (goToLower f.Extension) = true
        · simp only [List.foldl_cons, List.countP_cons]
          simp only [Bool.not_eq_true] at hI hV
          simp only [hI, hV, hA]
          simp only [ih]
          simp [hI, hV, hA]
          omega
        · simp only [List.foldl_cons, List.countP_cons]
          simp only [Bool.not_eq_true] at hI hV hA
          simp only [hI, hV, hA]
          simp only [ih]
          simp [hI, hV, hA]

/-- Amended C9: `extractMediaInsights` sets the image pair exactly when the
image count strictly exceeds the video count and the audio count separately
(not their sum); otherwise the video pair whenever any video exists (even if
audio dominates); otherwise the audio pair whenever any audio exists;
otherwise it leaves the insight unchanged. -/
theorem extractMediaInsights_branches (insight : ContentInsight) (files : List FileSummary) :
    (mediaCounts files).1 = files.countP (fun f => IsImageFile (goToLower f.Extension)) ∧
    (mediaCounts files).2.1 = files.countP (fun f =>
      !IsImageFile (goToLower f.Extension) && IsVideoFile (goToLower f.Extension)) ∧
    (mediaCounts files).2.2 = files.countP (fun f =>
      !IsImageFile (goToLower f.Extension) && !IsVideoFile (goToLower f.Extension)
        && IsAudioFile (goToLower f.Extension)) ∧
    ((mediaCounts files).1 > (mediaCounts files).2.1 ∧ (mediaCounts files).1 > (mediaCounts files).2.2 →
      extractMediaInsights insight files =
        { insight with Topics := ["photos", "images"],
                       Recommendations := ["Browse through and enjoy the memories! 📸"] }) ∧
    (¬ ((mediaCounts files).1 > (mediaCounts files).2.1 ∧ (mediaCounts files).1 > (mediaCounts files).2.2) →
      ((mediaCounts files).2.1 > 0 →
        extractMediaInsights insight files =
          { insight with Topics := ["videos"],
                         Recommendations := ["Grab some popcorn and enjoy! 🍿"] }) ∧
      ((mediaCounts files).2.1 = 0 → (mediaCounts files).2.2 > 0 →
        extractMediaInsights insight files =
          { insight with Topics := ["music", "audio"],
                         Recommendations := ["Put on your headphones and vibe! 🎵"] }) ∧
      ((mediaCounts files).2.1 = 0 → (mediaCounts files).2.2 = 0 →
        extractMediaInsights insight files = insight)) := by
  have hc : mediaCounts files = (files.countP (fun f => IsImageFile (goToLower f.Extension)),
      files.countP (fun f =>
        !IsImageFile (goToLower f.Extension) && IsVideoFile (goToLower f.Extension)),
      files.countP (fun f =>
        !IsImageFile (goToLower f.Extension) && !IsVideoFile (goToLower f.Extension)
          && IsAudioFile (goToLower f.Extension))) := by
    unfold mediaCounts
    rw [mediaCounts_countP]
    simp
  refine ⟨by rw [hc], by rw [hc], by rw [hc], ?_, ?_⟩
  · intro hdom
    simp [extractMediaInsights, hdom]
  · intro hdom
    refine ⟨?_, ?_, ?_⟩
    · intro hv
      simp [extractMediaInsights, hdom, hv, Nat.pos_iff_ne_zero.mp hv]
    · intro hv ha
      have hdom' : ¬ (0 < (mediaCounts files).1 ∧ (mediaCounts files).2.2 < (mediaCounts files).1) := by
        omega
      simp [extractMediaInsights, hdom', hv, Nat.pos_iff_ne_zero.mp ha]
    · intro hv ha
      have himg : (mediaCounts files).1 = 0 := by omega
      simp [extractMediaInsights, hv, ha, himg]

/-- Counterexample to C9 as stated: for `mediaFiles4` the detected domain is
`media` and audio is the dominant subtype by majority (3 audio vs 1 video vs
0 images), but `extractMediaInsights` sets the video pair `["videos"]`, not
the audio pair `["music", "audio"]` — the video branch fires whenever any
video exists and images do not strictly dominate pairwise. -/
theorem extractMediaInsights_majority_counterexample :
    detectDomain (categorizeFiles mediaFiles4) mediaFiles4 = DomainType.media ∧
    mediaCounts mediaFiles4 = (0, 1, 3) ∧
    (AnalyzeDirectory 2026 ⟨"/m", 4, [], mediaFiles4⟩).Topics = ["videos"] ∧
    ["videos"] ≠ ["music", "audio"] := by
  have hcat : categorizeFiles mediaFiles4 = [("video", 1), ("audio", 3)] := by decide
  have gcode : hGet [("video", 1), ("audio", 3)] "code" = 0 := rfl
  have gconf : hGet [("video", 1), ("audio", 3)] "config" = 0 := rfl
  have gpdf : hGet [("video", 1), ("audio", 3)] "pdf" = 0 := rfl
  have gword : hGet [("video", 1), ("audio", 3)] "word" = 0 := rfl
  have gtext : hGet [("video", 1), ("audio", 3)] "text" = 0 := rfl
  have gimg : hGet [("video", 1), ("audio", 3)] "image" = 0 := rfl
  have gvid : hGet [("video", 1), ("audio", 3)] "video" = 1 := rfl
  have gaud : hGet [("video", 1), ("audio", 3)] "audio" = 3 := rfl
  have gT : hTotal [("video", 1), ("audio", 3)] = 4 := rfl
  have hcp : codePercent [("video", 1), ("audio", 3)] = 0 := by
    unfold codePercent
    rw [gcode, gconf, gT]
    norm_num
  have hdp : docPercent [("video", 1), ("audio", 3)] = 0 := by
    unfold docPercent
    rw [gpdf, gword, gtext, gT]
    norm_num
  have hmp : mediaPercent [("video", 1), ("audio", 3)] = 1 := by
    unfold mediaPercent
    rw [gimg, gvid, gaud, gT]
    norm_num
  have hdom : detectDomain (categorizeFiles mediaFiles4) mediaFiles4 = DomainType.media := by
    rw [hcat]
    unfold detectDomain
    rw [if_neg (by rw [gT]; norm_num)]
    rw [if_neg ?hsw]
    case hsw =>
      intro h
      rcases h with h | h
      · exact absurd h (by decide)
      · rw [hcp] at h
        norm_num at h
    rw [if_neg ?hdoc]
    case hdoc =>
      rw [hdp]
      norm_num
    rw [if_pos ?hm]
    case hm =>
      rw [hmp]
      norm_num
    rw [if_neg (by decide)]
  refine ⟨hdom, by decide, ?_, by decide⟩
  show (AnalyzeDirectory 2026 ⟨"/m", 4, [], mediaFiles4⟩).Topics = ["videos"]
  unfold AnalyzeDirectory
  rw [show (⟨"/m", 4, [], mediaFiles4⟩ : DirectorySummary).Files = mediaFiles4 from rfl]
  rw [hdom]
  decide

/-! ### Claim C7: `Run` keeps files whose extraction failed. -/

/-- Claim C7: `Run` produces exactly one `FileSummary` per scanned
non-directory file, in order, and a file whose extractor returned an error is
retained with category `"unknown"` and no metadata; one failure never
removes other files. -/
theorem run_retains_failed_extractions
    (extract : FileInfo → Except String ExtractedContent) (dir : ScanResult) :
    (Run extract dir).Files
        = (dir.Files.filter (fun f => ¬ f.«Type» = FileType.directory)).map
            (mkFileSummary extract) ∧
    (Run extract dir).Files.length
        = (dir.Files.filter (fun f => ¬ f.«Type» = FileType.directory)).length ∧
    (∀ f : FileInfo, ∀ e : String, extract f = Except.error e →
      mkFileSummary extract f = ⟨f.Name, "unknown", f.Size, none⟩) := by
  have hmap : ∀ l : List FileInfo, runSummaries extract l
      = (l.filter (fun f => ¬ f.«Type» = FileType.directory)).map (mkFileSummary extract) := by
    intro l
    induction l with
    | nil => rfl
    | cons f t ih =>
      by_cases h : f.«Type» = FileType.directory
      · simp [runSummaries, h, List.filter_cons, ih]
      · simp [runSummaries, h, List.filter_cons, ih]
  refine ⟨hmap dir.Files, ?_, ?_⟩
  · show (runSummaries extract dir.Files).length = _
    rw [hmap dir.Files, List.length_map]
  · intro f e he
    unfold mkFileSummary
    rw [he]

/-- Witness for C7: at a concrete failing oracle and file, the summary keeps
the file with category `"unknown"` and no metadata. -/
theorem run_retains_failed_extractions_witness :
    mkFileSummary failingExtract ⟨"a.txt", "/r/a.txt", FileType.file, ".txt", 5⟩
      = ⟨"a.txt", "unknown", 5, none⟩ :=
  (run_retains_failed_extractions failingExtract ⟨"/r", [], []⟩).2.2
    ⟨"a.txt", "/r/a.txt", FileType.file, ".txt", 5⟩ "boom" rfl

/-! ### Claim C8: the scanner's per-entry stat. -/

/-- Evaluation of the walk callback on file entries (claim C8). A readable
non-hidden file becomes exactly one descriptor with lower-cased extension
and the stat size. But when `d.Info()` fails, the callback dereferences a
nil `fs.FileInfo` interface and panics (modelled by `none`): the size is
not treated as 0 and the scan does not continue. -/
theorem scanner_stat_failure_panics :
    walkFn "/r" "/r/A.TXT" (some (FSNode.file "A.TXT" (some 7))) none ⟨[], []⟩
      = some (⟨[⟨"A.TXT", "/r/A.TXT", FileType.file, ".txt", 7⟩], []⟩, WalkCtl.cont) ∧
    walkFn "/r" "/r/data.bin" (some (FSNode.file "data.bin" none)) none ⟨[], []⟩
      = none ∧
    (∀ st : ScanState,
      walkFn "/r" "/r/data.bin" (some (FSNode.file "data.bin" none)) none st ≠
        some ((⟨st.files ++ [⟨"data.bin", "/r/data.bin", FileType.file, ".bin", 0⟩], st.subs⟩ : ScanState), WalkCtl.cont)) := by
  refine ⟨by decide, by decide, ?_⟩
  intro st
  simp [walkFn, strStarts, strStartsL, FSNode.name, FSNode.isDir, FSNode.stat]

/-! ### Claim C3: `ScanDirectory` swallows the root error. -/

/-- Evaluation of `ScanDirectory` for claim C3: a completed scan never
returns an error — in particular an unreadable or nonexistent root produces
`ok` with an empty result, because the callback's `if err != nil { return
nil }` also swallows the error `WalkDir` reports for the root itself, making
`ScanDirectory`'s `if err != nil { return nil, err }` branch dead code. -/
theorem scanDirectory_never_errors :
    (∀ (rootPath : String) (root : Option FSNode),
      ScanDirectory rootPath root = none ∨
      ∃ r : ScanResult, ScanDirectory rootPath root = some (Except.ok r)) ∧
    ScanDirectory "/nonexistent" none = some (Except.ok ⟨"/nonexistent", [], []⟩) := by
  constructor
  · intro rootPath root
    cases root with
    | none =>
      right
      exact ⟨⟨rootPath, [], []⟩, rfl⟩
    | some node =>
      unfold ScanDirectory
      cases h : walkNode rootPath rootPath ⟨[], []⟩ node with
      | none => left; simp [h]
      | some st => right; exact ⟨⟨rootPath, st.files, st.subs⟩, by simp [h]⟩
  · rfl

/-- Witness for the amended C9 at a concrete input: images do not dominate
pairwise and a video exists, so the video pair is set. -/
theorem extractMediaInsights_branches_witness :
    extractMediaInsights ⟨DomainType.media, [], "", [], [], [], 0⟩ mediaFiles4 =
      { (⟨DomainType.media, [], "", [], [], [], 0⟩ : ContentInsight) with
          Topics := ["videos"],
          Recommendations := ["Grab some popcorn and enjoy! 🍿"] } :=
  ((extractMediaInsights_branches ⟨DomainType.media, [], "", [], [], [], 0⟩
      mediaFiles4).2.2.2.2 (by decide)).1 (by decide)

/-! ### Membership preservation through the `sort.Slice` embedding.

Every mutation in the sort is a swap of two existing positions, so every
element of the output list is an element of the input list. -/

/-- A swap introduces no new elements. -/
theorem mem_of_mem_lswap [Inhabited α] {l : List α} {i j : Nat} {x : α}
    (h : x ∈ lswap l i j) : x ∈ l := by
  unfold lswap at h
  by_cases hb : i < l.length ∧ j < l.length
  · rw [if_pos hb] at h
    rcases List.mem_or_eq_of_mem_set h with h1 | rfl
    · rcases List.mem_or_eq_of_mem_set h1 with h2 | rfl
      · exact h2
      · unfold lget
        rw [List.getD_eq_getElem?_getD, List.getElem?_eq_getElem hb.2]
        exact List.getElem_mem hb.2
    · unfold lget
      rw [List.getD_eq_getElem?_getD, List.getElem?_eq_getElem hb.1]
      exact List.getElem_mem hb.1
  · rw [if_neg hb] at h
    exact h

/-- `isortInner` introduces no new elements. -/
theorem mem_of_mem_isortInner [Inhabited α] (less : α → α → Bool) (a : Nat) :
    ∀ (j : Nat) (l : List α) (x : α), x ∈ isortInner less l a j → x ∈ l := by
  intro j
  induction j with
  | zero => intro l x h; exact h
  | succ j ih =>
    intro l x h
    unfold isortInner at h
    by_cases hc : a < j + 1 ∧ lless less l (j + 1) j = true
    · rw [if_pos hc] at h
      exact mem_of_mem_lswap (ih _ x h)
    · rw [if_neg hc] at h
      exact h

/-- `isortLoop` introduces no new elements. -/
theorem mem_of_mem_isortLoop [Inhabited α] (less : α → α → Bool) (a b : Nat) :
    ∀ (fuel : Nat) (l : List α) (i : Nat) (x : α), x ∈ isortLoop less a b fuel l i → x ∈ l := by
  intro fuel
  induction fuel with
  | zero => intro l i x h; exact h
  | succ fuel ih =>
    intro l i x h
    unfold isortLoop at h
    by_cases hc : i < b
    · rw [if_pos hc] at h
      exact mem_of_mem_isortInner less a i l x (ih _ _ x h)
    · rw [if_neg hc] at h
      exact h

/-- `goInsertionSort` introduces no new elements. -/
theorem mem_of_mem_goInsertionSort [Inhabited α] (less : α → α → Bool) (l : List α)
    (a b : Nat) (x : α) (h : x ∈ goInsertionSort less l a b) : x ∈ l :=
  mem_of_mem_isortLoop less a b b l (a + 1) x h

/-- `siftDownLoop` introduces no new elements. -/
theorem mem_of_mem_siftDownLoop [Inhabited α] (less : α → α → Bool) (hi first : Nat) :
    ∀ (fuel : Nat) (l : List α) (root : Nat) (x : α),
      x ∈ siftDownLoop less hi first fuel l root → x ∈ l := by
  intro fuel
  induction fuel with
  | zero => intro l root x h; exact h
  | succ fuel ih =>
    intro l root x h
    unfold siftDownLoop at h
    simp only [] at h
    split_ifs at h
    all_goals (
      repeat first
        | replace h := ih _ _ x h
        | replace h := mem_of_mem_lswap h)
    all_goals exact h

/-- `goSiftDown` introduces no new elements. -/
theorem mem_of_mem_goSiftDown [Inhabited α] (less : α → α → Bool) (l : List α)
    (lo hi first : Nat) (x : α) (h : x ∈ goSiftDown less l lo hi first) : x ∈ l :=
  mem_of_mem_siftDownLoop less hi first (hi + 1) l lo x h

/-- `heapBuildLoop` introduces no new elements. -/
theorem mem_of_mem_heapBuildLoop [Inhabited α] (less : α → α → Bool) (hi first : Nat) :
    ∀ (i : Nat) (l : List α) (x : α), x ∈ heapBuildLoop less hi first i l → x ∈ l := by
  intro i
  induction i with
  | zero => intro l x h; exact mem_of_mem_goSiftDown less l 0 hi first x h
  | succ i ih =>
    intro l x h
    exact mem_of_mem_goSiftDown less l (i + 1) hi first x (ih _ x h)

/-- `heapPopLoop` introduces no new elements. -/
theorem mem_of_mem_heapPopLoop [Inhabited α] (less : α → α → Bool) (first : Nat) :
    ∀ (i : Nat) (l : List α) (x : α), x ∈ heapPopLoop less first i l → x ∈ l := by
  intro i
  induction i with
  | zero =>
    intro l x h
    exact mem_of_mem_lswap (mem_of_mem_goSiftDown less _ 0 0 first x h)
  | succ i ih =>
    intro l x h
    exact mem_of_mem_lswap (mem_of_mem_goSiftDown less _ 0 (i + 1) first x (ih _ x h))

/-- `goHeapSort` introduces no new elements. -/
theorem mem_of_mem_goHeapSort [Inhabited α] (less : α → α → Bool) (l : List α)
    (a b : Nat) (x : α) (h : x ∈ goHeapSort less l a b) : x ∈ l := by
  unfold goHeapSort at h
  by_cases hz : b - a = 0
  · rw [if_pos hz] at h
    exact mem_of_mem_heapBuildLoop less (b - a) a _ l x h
  · rw [if_neg hz] at h
    exact mem_of_mem_heapBuildLoop less (b - a) a _ l x
      (mem_of_mem_heapPopLoop less a _ _ x h)

/-- `revRangeLoop` introduces no new elements. -/
theorem mem_of_mem_revRangeLoop [Inhabited α] :
    ∀ (fuel : Nat) (l : List α) (i j : Nat) (x : α), x ∈ revRangeLoop fuel l i j → x ∈ l := by
  intro fuel
  induction fuel with
  | zero => intro l i j x h; exact h
  | succ fuel ih =>
    intro l i j x h
    unfold revRangeLoop at h
    by_cases hc : i < j
    · rw [if_pos hc] at h
      exact mem_of_mem_lswap (ih _ _ _ x h)
    · rw [if_neg hc] at h
      exact h

/-- `goReverseRange` introduces no new elements. -/
theorem mem_of_mem_goReverseRange [Inhabited α] (l : List α) (a b : Nat) (x : α)
    (h : x ∈ goReverseRange l a b) : x ∈ l :=
  mem_of_mem_revRangeLoop b l a (b - 1) x h

/-- `pdqBreakPatterns` introduces no new elements. -/
theorem mem_of_mem_pdqBreakPatterns [Inhabited α] (l : List α) (a b : Nat) (x : α)
    (h : x ∈ pdqBreakPatterns l a b) : x ∈ l := by
  unfold pdqBreakPatterns at h
  by_cases hc : 8 ≤ b - a
  · rw [if_pos hc] at h
    exact mem_of_mem_lswap (mem_of_mem_lswap (mem_of_mem_lswap h))
  · rw [if_neg hc] at h
    exact h

/-- `paiShiftLeft` introduces no new elements. -/
theorem mem_of_mem_paiShiftLeft [Inhabited α] (less : α → α → Bool) :
    ∀ (fuel : Nat) (l : List α) (j : Nat) (x : α), x ∈ paiShiftLeft less fuel l j → x ∈ l := by
  intro fuel
  induction fuel with
  | zero => intro l j x h; exact h
  | succ fuel ih =>
    intro l j x h
    unfold paiShiftLeft at h
    split_ifs at h
    · exact mem_of_mem_lswap (ih _ _ x h)
    · exact h

/-- `paiShiftRight` introduces no new elements. -/
theorem mem_of_mem_paiShiftRight [Inhabited α] (less : α → α → Bool) (b : Nat) :
    ∀ (fuel : Nat) (l : List α) (j : Nat) (x : α), x ∈ paiShiftRight less b fuel l j → x ∈ l := by
  intro fuel
  induction fuel with
  | zero => intro l j x h; exact h
  | succ fuel ih =>
    intro l j x h
    unfold paiShiftRight at h
    split_ifs at h
    · exact mem_of_mem_lswap (ih _ _ x h)
    · exact h

/-- `paiSteps` introduces no new elements. -/
theorem mem_of_mem_paiSteps [Inhabited α] (less : α → α → Bool) (a b : Nat) :
    ∀ (steps : Nat) (l : List α) (i : Nat) (x : α), x ∈ (paiSteps less a b steps l i).1 → x ∈ l := by
  intro steps
  induction steps with
  | zero => intro l i x h; exact h
  | succ steps ih =>
    intro l i x h
    unfold paiSteps at h
    simp only [] at h
    split_ifs at h
    all_goals (
      repeat first
        | replace h := ih _ _ x h
        | replace h := mem_of_mem_paiShiftRight less b _ _ _ x h
        | replace h := mem_of_mem_paiShiftLeft less _ _ _ x h
        | replace h := mem_of_mem_lswap h)
    all_goals exact h

/-- `pdqPartialInsertionSort` introduces no new elements. -/
theorem mem_of_mem_pdqPartialInsertionSort [Inhabited α] (less : α → α → Bool)
    (l : List α) (a b : Nat) (x : α) (h : x ∈ (pdqPartialInsertionSort less l a b).1) : x ∈ l :=
  mem_of_mem_paiSteps less a b 5 l (a + 1) x h

/-- `partLoop` introduces no new elements. -/
theorem mem_of_mem_partLoop [Inhabited α] (less : α → α → Bool) (a b : Nat) :
    ∀ (fuel : Nat) (l : List α) (i j : Nat) (x : α), x ∈ (partLoop less a b fuel l i j).1 → x ∈ l := by
  intro fuel
  induction fuel with
  | zero => intro l i j x h; exact h
  | succ fuel ih =>
    intro l i j x h
    unfold partLoop at h
    simp only [] at h
    split_ifs at h
    · exact h
    · exact mem_of_mem_lswap (ih _ _ _ x h)

/-- `pdqPartition` introduces no new elements. -/
theorem mem_of_mem_pdqPartition [Inhabited α] (less : α → α → Bool) (l : List α)
    (a b pivot : Nat) (x : α) (h : x ∈ (pdqPartition less l a b pivot).1) : x ∈ l := by
  unfold pdqPartition at h
  simp only [] at h
  split_ifs at h
  · exact mem_of_mem_lswap (mem_of_mem_lswap h)
  · rcases hpl : partLoop less a b (b + 2) (lswap (lswap l a pivot) _ _) _ _ with ⟨l2, j2⟩
    rw [hpl] at h
    have h2 : x ∈ l2 := mem_of_mem_lswap h
    have h3 := mem_of_mem_partLoop less a b (b + 2) _ _ _ x (by rw [hpl]; exact h2)
    exact mem_of_mem_lswap (mem_of_mem_lswap h3)

/-- `partEqLoop` introduces no new elements. -/
theorem mem_of_mem_partEqLoop [Inhabited α] (less : α → α → Bool) (a b : Nat) :
    ∀ (fuel : Nat) (l : List α) (i j : Nat) (x : α),
      x ∈ (partEqLoop less a b fuel l i j).1 → x ∈ l := by
  intro fuel
  induction fuel with
  | zero => intro l i j x h; exact h
  | succ fuel ih =>
    intro l i j x h
    unfold partEqLoop at h
    simp only [] at h
    split_ifs at h
    · exact h
    · exact mem_of_mem_lswap (ih _ _ _ x h)

/-- `pdqPartitionEqual` introduces no new elements. -/
theorem mem_of_mem_pdqPartitionEqual [Inhabited α] (less : α → α → Bool) (l : List α)
    (a b pivot : Nat) (x : α) (h : x ∈ (pdqPartitionEqual less l a b pivot).1) : x ∈ l :=
  mem_of_mem_lswap (mem_of_mem_partEqLoop less a b _ _ _ _ x h)

/-- `pdqRecurse` introduces no new elements when `rec` does not. -/
theorem mem_of_mem_pdqRecurse [Inhabited α] (less : α → α → Bool)
    (rec : List α → Nat → Nat → Nat → Bool → Bool → List α)
    (hrec : ∀ (l : List α) (a b limit : Nat) (wb wp : Bool) (x : α),
      x ∈ rec l a b limit wb wp → x ∈ l)
    (l2 : List α) (a b limit1 length pivot : Nat) (wb wp : Bool) (x : α)
    (h : x ∈ pdqRecurse less rec l2 a b limit1 length pivot wb wp) : x ∈ l2 := by
  unfold pdqRecurse at h
  split_ifs at h
  · rcases hq : pdqPartitionEqual less l2 a b pivot with ⟨l3, mid⟩
    rw [hq] at h
    refine mem_of_mem_pdqPartitionEqual less l2 a b pivot x ?_
    rw [hq]
    exact hrec _ _ _ _ _ _ _ h
  · rcases hq : pdqPartition less l2 a b pivot with ⟨l3, mid, wp1⟩
    rw [hq] at h
    refine mem_of_mem_pdqPartition less l2 a b pivot x ?_
    rw [hq]
    simp only [] at h
    split_ifs at h
    · exact hrec _ _ _ _ _ _ _ (hrec _ _ _ _ _ _ _ h)
    · exact hrec _ _ _ _ _ _ _ (hrec _ _ _ _ _ _ _ h)

/-- `pdqPrepared` introduces no new elements when `rec` does not. -/
theorem mem_of_mem_pdqPrepared [Inhabited α] (less : α → α → Bool)
    (rec : List α → Nat → Nat → Nat → Bool → Bool → List α)
    (hrec : ∀ (l : List α) (a b limit : Nat) (wb wp : Bool) (x : α),
      x ∈ rec l a b limit wb wp → x ∈ l)
    (l1 : List α) (a b limit1 length pivot : Nat) (hint : Hint) (wb wp : Bool) (x : α)
    (h : x ∈ pdqPrepared less rec l1 a b limit1 length pivot hint wb wp) : x ∈ l1 := by
  unfold pdqPrepared at h
  split_ifs at h
  all_goals (
    repeat first
      | replace h := mem_of_mem_pdqRecurse less rec hrec _ _ _ _ _ _ _ _ _ h
      | replace h := mem_of_mem_pdqPartialInsertionSort _ _ _ _ _ h)
  all_goals exact h

/-- `pdqPivoted` introduces no new elements when `rec` does not. -/
theorem mem_of_mem_pdqPivoted [Inhabited α] (less : α → α → Bool)
    (rec : List α → Nat → Nat → Nat → Bool → Bool → List α)
    (hrec : ∀ (l : List α) (a b limit : Nat) (wb wp : Bool) (x : α),
      x ∈ rec l a b limit wb wp → x ∈ l)
    (l0 : List α) (a b limit1 length : Nat) (wb wp : Bool) (x : α)
    (h : x ∈ pdqPivoted less rec l0 a b limit1 length wb wp) : x ∈ l0 := by
  unfold pdqPivoted at h
  split_ifs at h
  all_goals (
    repeat first
      | replace h := mem_of_mem_pdqPrepared less rec hrec _ _ _ _ _ _ _ _ _ _ h
      | replace h := mem_of_mem_goReverseRange _ _ _ _ h)
  all_goals exact h

/-- `goPdqsort` introduces no new elements. -/
theorem mem_of_mem_goPdqsort [Inhabited α] (less : α → α → Bool) :
    ∀ (fuel : Nat) (l : List α) (a b limit : Nat) (wb wp : Bool) (x : α),
      x ∈ goPdqsort less fuel l a b limit wb wp → x ∈ l := by
  intro fuel
  induction fuel with
  | zero => intro l a b limit wb wp x h; exact h
  | succ fuel ih =>
    intro l a b limit wb wp x h
    unfold goPdqsort at h
    split_ifs at h
    all_goals (
      repeat first
        | replace h := mem_of_mem_pdqPivoted less (goPdqsort less fuel) ih _ _ _ _ _ _ _ _ h
        | replace h := mem_of_mem_pdqBreakPatterns _ _ _ _ h
        | replace h := mem_of_mem_goInsertionSort _ _ _ _ _ h
        | replace h := mem_of_mem_goHeapSort _ _ _ _ _ h)
    all_goals exact h

/-- `goSortSlice` introduces no new elements. -/
theorem mem_of_mem_goSortSlice [Inhabited α] (less : α → α → Bool) (l : List α) (x : α)
    (h : x ∈ goSortSlice less l) : x ∈ l :=
  mem_of_mem_goPdqsort less _ l 0 l.length (bitsLen l.length) true true x h

/-! ### Claim C5: `KeyFiles` membership. -/

/-- `findImportantDocs` returns only names of input files. -/
theorem findImportantDocs_names (currentYear : Int) (files : List FileSummary) (limit : Nat)
    (k : String) (h : k ∈ findImportantDocs currentYear files limit) :
    ∃ f ∈ files, f.Name = k := by
  unfold findImportantDocs at h
  rcases List.mem_map.mp h with ⟨sc, hsc, rfl⟩
  have hmem := mem_of_mem_goSortSlice _ _ _ ((List.take_subset _ _) hsc)
  unfold scoredCandidates at hmem
  split_ifs at hmem
  · unfold largeFileDocs at hmem
    rcases List.mem_filterMap.mp hmem with ⟨f, hf, hsome⟩
    refine ⟨f, hf, ?_⟩
    split_ifs at hsome
    exact (congrArg ScoredFile.name (Option.some.inj hsome))
  · unfold scoredDocs at hmem
    rcases List.mem_filterMap.mp hmem with ⟨f, hf, hsome⟩
    refine ⟨f, hf, ?_⟩
    simp only [] at hsome
    split_ifs at hsome
    exact (congrArg ScoredFile.name (Option.some.inj hsome))

/-- `extractSoftwareInsights` key files are file names or the placeholder. -/
theorem keyFiles_extractSoftware (ins : ContentInsight) (files : List FileSummary)
    (k : String) (h : k ∈ (extractSoftwareInsights ins files).KeyFiles) :
    (∃ f ∈ files, f.Name = k) ∨ k = "Look in the src/ or lib/ directory" := by
  unfold extractSoftwareInsights at h
  simp only [] at h
  split_ifs at h
  · right
    simpa using h
  · left
    rcases hfind : files.find? (fun f => goToLower f.Name == "readme.md") with _ | f
    all_goals rw [hfind] at h
    · rcases List.mem_flatMap.mp h with ⟨f, hf, hk⟩
      rcases List.mem_filterMap.mp hk with ⟨e, _, hsome⟩
      split_ifs at hsome
      exact ⟨f, hf, congrArg id (Option.some.inj hsome)⟩
    · rcases List.mem_cons.mp h with rfl | h1
      · exact ⟨f, List.mem_of_find?_eq_some hfind, rfl⟩
      · rcases List.mem_flatMap.mp h1 with ⟨f1, hf1, hk⟩
        rcases List.mem_filterMap.mp hk with ⟨e, _, hsome⟩
        split_ifs at hsome
        exact ⟨f1, hf1, congrArg id (Option.some.inj hsome)⟩

/-- `extractDocumentInsights` key files are file names. -/
theorem keyFiles_extractDocument (currentYear : Int) (ins : ContentInsight)
    (files : List FileSummary) (k : String)
    (h : k ∈ (extractDocumentInsights currentYear ins files).KeyFiles) :
    ∃ f ∈ files, f.Name = k := by
  unfold extractDocumentInsights at h
  simp only [] at h
  split_ifs at h
  · exact findImportantDocs_names currentYear files 3 k h
  all_goals (
    first
    | replace h := (List.take_subset _ _) h
    | skip)
  all_goals (
    rcases List.mem_map.mp h with ⟨f, hf, rfl⟩
    exact ⟨f, List.mem_of_mem_filter (List.mem_of_mem_filter hf), rfl⟩)

/-- `extractMixedInsights` key files are file names. -/
theorem keyFiles_extractMixed (ins : ContentInsight) (files : List FileSummary)
    (k : String) (h : k ∈ (extractMixedInsights ins files).KeyFiles) :
    ∃ f ∈ files, f.Name = k := by
  unfold extractMixedInsights at h
  simp only [] at h
  rcases List.mem_map.mp h with ⟨e, he, rfl⟩
  have hsort := mem_of_mem_goSortSlice _ _ _ ((List.take_subset _ _) he)
  rcases List.mem_map.mp hsort with ⟨f, hf, rfl⟩
  exact ⟨f, hf, rfl⟩

/-- `extractMediaInsights` never touches `KeyFiles`. -/
theorem extractMedia_keyFiles (ins : ContentInsight) (files : List FileSummary) :
    (extractMediaInsights ins files).KeyFiles = ins.KeyFiles := by
  unfold extractMediaInsights
  split_ifs <;> rfl

/-- Amended C5: every entry of `KeyFiles` is either the name of a file of
the summary or the literal placeholder `"Look in the src/ or lib/ directory"`.
The placeholder comes from the software branch, which collects the files whose
lowercased name equals one of the entry points `main.dart`, `main.go`,
`index.js`, `index.html`, `app.py`, `main.py`, prepends a file whose
lowercased name is exactly `readme.md`, and falls back to the placeholder
when that key-file list ends up empty. -/
theorem analyzeDirectory_keyfiles (currentYear : Int) (summary : DirectorySummary) :
    ∀ k ∈ (AnalyzeDirectory currentYear summary).KeyFiles,
      (∃ f ∈ summary.Files, f.Name = k) ∨ k = "Look in the src/ or lib/ directory" := by
  intro k hk
  unfold AnalyzeDirectory at hk
  cases hdom : detectDomain (categorizeFiles summary.Files) summary.Files
  all_goals rw [hdom] at hk
  case software => exact keyFiles_extractSoftware _ _ k hk
  case documents => exact Or.inl (keyFiles_extractDocument _ _ _ k hk)
  case study => exact Or.inl (keyFiles_extractDocument _ _ _ k hk)
  case media =>
    rw [extractMedia_keyFiles] at hk
    cases hk
  case financial => cases hk
  case creative => cases hk
  case mixed => exact Or.inl (keyFiles_extractMixed _ _ k hk)
  case empty => exact Or.inl (keyFiles_extractMixed _ _ k hk)

/-- Counterexample to C5 as stated: a software-domain summary with no
entry-point file and no file lowercasing to `readme.md` gets the placeholder
string as its only key file, which is not the name of any `FileSummary`
entry. -/
theorem analyzeDirectory_keyfiles_counterexample :
    (AnalyzeDirectory 2026 goModOnly).KeyFiles = ["Look in the src/ or lib/ directory"] ∧
    ¬ ∃ f ∈ goModOnly.Files, f.Name = "Look in the src/ or lib/ directory" := by
  constructor
  · decide
  · decide

/-- Witness for the amended C5 at a concrete input: `main.go` is listed and
is indeed a file of the summary. -/
theorem analyzeDirectory_keyfiles_witness :
    (∃ f ∈ mainGoProject.Files, f.Name = "main.go") ∨
      "main.go" = "Look in the src/ or lib/ directory" :=
  analyzeDirectory_keyfiles 2026 mainGoProject "main.go" (by decide)

theorem insRev_length (less : α → α → Bool) (x : α) :
    ∀ l : List α, (insRev less x l).length = l.length + 1 := by
  intro l
  induction l with
  | nil => rfl
  | cons y t ih =>
    rw [insRev]
    split_ifs
    · simp [ih]
    · simp

theorem insStable_length (less : α → α → Bool) (x : α) (l : List α) :
    (insStable less x l).length = l.length + 1 := by
  unfold insStable
  simp [insRev_length]

theorem mem_insRev (less : α → α → Bool) (x z : α) :
    ∀ l : List α, z ∈ insRev less x l → z = x ∨ z ∈ l := by
  intro l
  induction l with
  | nil =>
    intro h
    simp [insRev] at h
    exact Or.inl h
  | cons y t ih =>
    rw [insRev]
    split_ifs
    · intro h
      rcases List.mem_cons.mp h with h | h
      · exact Or.inr (List.mem_cons.mpr (Or.inl h))
      · rcases ih h with h | h
        · exact Or.inl h
        · exact Or.inr (List.mem_cons.mpr (Or.inr h))
    · intro h
      rcases List.mem_cons.mp h with h | h
      · exact Or.inl h
      · exact Or.inr h

theorem lget_append [Inhabited α] (z : α) :
    ∀ (P R : List α), lget (P ++ z :: R) P.length = z := by
  intro P
  induction P with
  | nil => intro R; rfl
  | cons p P' ih => intro R; simpa [lget] using ih R

theorem lswap_cons [Inhabited α] (p : α) (M : List α) (i j : Nat) :
    lswap (p :: M) (i + 1) (j + 1) = p :: lswap M i j := by
  unfold lswap
  simp only [List.length_cons, Nat.add_lt_add_iff_right]
  split_ifs with h
  · simp [lget]
  · rfl

theorem lswap_adjacent [Inhabited α] (y x : α) :
    ∀ (P R : List α), lswap (P ++ y :: x :: R) (P.length + 1) P.length = P ++ x :: y :: R := by
  intro P
  induction P with
  | nil =>
    intro R
    unfold lswap
    simp [lget]
  | cons p P' ih =>
    intro R
    show lswap (p :: (P' ++ y :: x :: R)) (P'.length + 1 + 1) (P'.length + 1) = _
    rw [lswap_cons, ih]
    rfl

theorem isortInner_bridge [Inhabited α] (less : α → α → Bool) (x : α) :
    ∀ (S R : List α),
    isortInner less (S ++ x :: R) 0 S.length = insStable less x S ++ R := by
  intro S
  induction S using List.reverseRecOn with
  | nil =>
    intro R
    simp [isortInner, insStable, insRev]
  | append_singleton L y ih =>
    intro R
    have hlen : (L ++ [y]).length = L.length + 1 := by simp
    have hl : (L ++ [y]) ++ x :: R = L ++ y :: x :: R := by simp
    rw [hlen, hl, isortInner]
    have hx : lget (L ++ y :: x :: R) (L.length + 1) = x := by
      have := lget_append x (L ++ [y]) R
      simpa using this
    have hy : lget (L ++ y :: x :: R) L.length = y := lget_append y L (x :: R)
    have hrev : (L ++ [y]).reverse = y :: L.reverse := by simp
    by_cases h : less x y = true
    · rw [if_pos]
      · rw [lswap_adjacent, ih]
        unfold insStable
        rw [hrev, insRev, if_pos h, List.reverse_cons]
        simp
      · exact ⟨Nat.succ_pos _, by rw [lless, hx, hy]; exact h⟩
    · rw [if_neg]
      · unfold insStable
        rw [hrev, insRev, if_neg h]
        simp
      · intro hc
        rw [lless, hx, hy] at hc
        exact h hc.2

theorem isortLoop_bridge [Inhabited α] (less : α → α → Bool) :
    ∀ (P : List α) (fuel : Nat) (S : List α) (b : Nat), P.length ≤ fuel →
    b = S.length + P.length →
    isortLoop less 0 b fuel (S ++ P) S.length =
      P.foldl (fun acc x => insStable less x acc) S := by
  intro P
  induction P with
  | nil =>
    intro fuel S b _ hb
    cases fuel with
    | zero => simp [isortLoop]
    | succ f =>
      rw [isortLoop, if_neg (by simp at hb; omega)]
      simp
  | cons x P' ih =>
    intro fuel S b hfuel hb
    cases fuel with
    | zero => simp at hfuel
    | succ f =>
      rw [isortLoop, if_pos (by simp at hb; omega)]
      rw [isortInner_bridge]
      have hS : (insStable less x S).length = S.length + 1 := insStable_length less x S
      have := ih f (insStable less x S) b (by simpa using hfuel) (by simp at hb ⊢; omega)
      rw [hS] at this
      rw [this]
      rfl

theorem goInsertionSort_stableSort [Inhabited α] (less : α → α → Bool) (l : List α) :
    goInsertionSort less l 0 l.length = stableSort less l := by
  cases l with
  | nil => rfl
  | cons x t =>
    have h2 : ([x] : List α).length = 1 := rfl
    have key := isortLoop_bridge less t (t.length + 1) [x] (t.length + 1)
      (by omega) (by simp; omega)
    rw [h2] at key
    show isortLoop less 0 (t.length + 1) (t.length + 1) ([x] ++ t) 1 = stableSort less (x :: t)
    rw [key]
    rfl

theorem goSortSlice_small [Inhabited α] (less : α → α → Bool) (l : List α)
    (h : l.length ≤ 12) : goSortSlice less l = stableSort less l := by
  unfold goSortSlice
  have hfuel : 2 * l.length + 64 = (2 * l.length + 63) + 1 := rfl
  rw [hfuel, goPdqsort, if_pos (by omega)]
  exact goInsertionSort_stableSort less l

/-! ### Stability and sortedness of the reference sort at the `findImportantDocs`
comparator (`func(i, j int) bool { return scored[i].score > scored[j].score }`). -/

theorem insRev_filter_score (x : ScoredFile) (s : Int) :
    ∀ l : List ScoredFile,
    (insRev (fun u v => u.score > v.score) x l).filter (fun e => e.score == s) =
      (if x.score == s then [x] else []) ++ l.filter (fun e => e.score == s) := by
  intro l
  induction l with
  | nil => by_cases hx : x.score = s <;> simp [insRev, hx]
  | cons y t ih =>
    simp only [insRev]
    by_cases h : x.score > y.score
    · rw [if_pos (by simpa using h), List.filter_cons, ih]
      by_cases hy : y.score = s
      · have hx : ¬ x.score = s := by omega
        simp [hy, hx]
      · simp [hy]
    · rw [if_neg (by simpa using h), List.filter_cons, List.filter_cons]
      by_cases hx : x.score = s <;> simp [hx]

theorem insStable_filter_score (x : ScoredFile) (s : Int) (l : List ScoredFile) :
    (insStable (fun u v => u.score > v.score) x l).filter (fun e => e.score == s) =
      l.filter (fun e => e.score == s) ++ (if x.score == s then [x] else []) := by
  unfold insStable
  rw [List.filter_reverse, insRev_filter_score, List.reverse_append, List.filter_reverse,
    List.reverse_reverse]
  by_cases hx : x.score = s <;> simp [hx]

theorem foldl_insStable_filter_score (s : Int) :
    ∀ (P acc : List ScoredFile),
    (P.foldl (fun a x => insStable (fun u v => u.score > v.score) x a) acc).filter
        (fun e => e.score == s) =
      acc.filter (fun e => e.score == s) ++ P.filter (fun e => e.score == s) := by
  intro P
  induction P with
  | nil => intro acc; simp
  | cons x t ih =>
    intro acc
    rw [List.foldl_cons, ih, insStable_filter_score, List.filter_cons]
    by_cases hx : x.score = s <;> simp [hx]

theorem stableSort_filter_score (s : Int) (l : List ScoredFile) :
    (stableSort (fun u v => u.score > v.score) l).filter (fun e => e.score == s) =
      l.filter (fun e => e.score == s) := by
  unfold stableSort
  rw [foldl_insStable_filter_score]
  simp

theorem insRev_pairwise (x : ScoredFile) :
    ∀ l : List ScoredFile, l.Pairwise (fun u v => u.score ≤ v.score) →
    (insRev (fun u v => u.score > v.score) x l).Pairwise (fun u v => u.score ≤ v.score) := by
  intro l
  induction l with
  | nil => intro _; simp [insRev]
  | cons y t ih =>
    intro h
    rw [List.pairwise_cons] at h
    simp only [insRev]
    by_cases hxy : x.score > y.score
    · rw [if_pos (by simpa using hxy)]
      rw [List.pairwise_cons]
      constructor
      · intro z hz
        rcases mem_insRev _ x z t hz with rfl | hz
        · omega
        · exact h.1 z hz
      · exact ih h.2
    · rw [if_neg (by simpa using hxy)]
      rw [List.pairwise_cons]
      constructor
      · intro z hz
        rcases List.mem_cons.mp hz with rfl | hz
        · omega
        · have := h.1 z hz
          omega
      · exact List.pairwise_cons.mpr h

theorem insStable_pairwise (x : ScoredFile) (l : List ScoredFile)
    (h : l.Pairwise (fun u v => v.score ≤ u.score)) :
    (insStable (fun u v => u.score > v.score) x l).Pairwise (fun u v => v.score ≤ u.score) := by
  unfold insStable
  rw [List.pairwise_reverse]
  exact insRev_pairwise x l.reverse (List.pairwise_reverse.mpr h)

theorem stableSort_pairwise_aux :
    ∀ (P acc : List ScoredFile), acc.Pairwise (fun u v => v.score ≤ u.score) →
    (P.foldl (fun a x => insStable (fun u v => u.score > v.score) x a) acc).Pairwise
      (fun u v => v.score ≤ u.score) := by
  intro P
  induction P with
  | nil => intro acc h; simpa using h
  | cons x t ih =>
    intro acc h
    rw [List.foldl_cons]
    exact ih _ (insStable_pairwise x acc h)

theorem stableSort_desc (l : List ScoredFile) :
    (stableSort (fun u v => u.score > v.score) l).Pairwise (fun u v => v.score ≤ u.score) :=
  stableSort_pairwise_aux l [] (by simp)

/-- **C4 (amended).** `findImportantDocs` always returns at most `limit` names,
and whenever the candidate list has at most 12 entries — the regime in which
`sort.Slice`'s pdqsort delegates to its stable insertion sort — the sorted list
is descending in score, preserves the original relative order of equal-score
candidates (its filter at every score value equals the candidate list's
filter), and the returned names are the first `limit` names of that list. For
13 or more candidates the tie-breaking half of the original claim is false
(see the stability counterexample): `sort.Slice` is not a stable sort. -/
theorem findImportantDocs_sorted (currentYear : Int) (files : List FileSummary) (limit : Nat) :
    (findImportantDocs currentYear files limit).length ≤ limit ∧
    ((scoredCandidates currentYear files).length ≤ 12 →
      (goSortSlice (fun x y => x.score > y.score) (scoredCandidates currentYear files)).Pairwise
          (fun u v => v.score ≤ u.score) ∧
      (∀ s : Int,
        (goSortSlice (fun x y => x.score > y.score)
            (scoredCandidates currentYear files)).filter (fun e => e.score == s) =
          (scoredCandidates currentYear files).filter (fun e => e.score == s)) ∧
      findImportantDocs currentYear files limit =
        ((goSortSlice (fun x y => x.score > y.score)
            (scoredCandidates currentYear files)).take limit).map (fun e => e.name)) := by
  refine ⟨?_, fun hsmall => ⟨?_, fun s => ?_, rfl⟩⟩
  · unfold findImportantDocs
    rw [List.length_map, List.length_take]
    exact min_le_left _ _
  · rw [goSortSlice_small _ _ hsmall]
    exact stableSort_desc _
  · rw [goSortSlice_small _ _ hsmall]
    exact stableSort_filter_score s _

/-- **C4 counterexample.** With 13 candidates the sort runs pdqsort proper, not
the stable insertion sort: `final_summary_f.pdf` and `final_summary_k.pdf`
have equal scores and `f` precedes `k` in the input, yet `findImportantDocs`
returns `k` before `f` — ties do not preserve input order. -/
theorem findImportantDocs_stability_counterexample :
    docScore 2026 ⟨"final_summary_f.pdf", ".pdf", 100⟩ =
      docScore 2026 ⟨"final_summary_k.pdf", ".pdf", 100⟩ ∧
    List.indexOf "final_summary_f.pdf" (docFiles13.map (fun f => f.Name)) <
      List.indexOf "final_summary_k.pdf" (docFiles13.map (fun f => f.Name)) ∧
    List.indexOf "final_summary_k.pdf" (findImportantDocs 2026 docFiles13 13) <
      List.indexOf "final_summary_f.pdf" (findImportantDocs 2026 docFiles13 13) := by
  refine ⟨by decide, by decide, by decide⟩

/-- Witness for the C4 theorem: its smallness hypothesis is satisfiable and
yields the sortedness conclusion on a concrete input. -/
theorem findImportantDocs_sorted_witness :
    (scoredCandidates 2026 docFiles3).length ≤ 12 ∧
    (findImportantDocs 2026 docFiles3 2).length ≤ 2 ∧
    (goSortSlice (fun x y => x.score > y.score) (scoredCandidates 2026 docFiles3)).Pairwise
      (fun u v => v.score ≤ u.score) :=
  ⟨by decide, (findImportantDocs_sorted 2026 docFiles3 2).1,
    ((findImportantDocs_sorted 2026 docFiles3 2).2 (by decide)).1⟩
